import Mathlib

set_option maxRecDepth 40000

/-
Verification of the jira-ticket-viewer repository against its specification.

The relevant Python modules are shallowly embedded below:
  * ticket_operations.py / JiraTicketGUI_enhanced.py transition selection,
  * search_filter.py / JiraTicketGUI_enhanced.py client-side ticket filtering,
  * JiraTicketGUI_enhanced.py SLA detection,
  * reminder_manager.py due-reminder detection,
  * comment_monitor.py baseline scan and new-comment diffing,
  * ai_settings.py / ai_summarizer.py response post-processing,
  * license_manager.py / license_validator.py license generation and validation
    (with full JSON canonical serialization, base64, and HMAC-SHA256).

Conventions: strings are Lean `String`s; Python's `s.lower()` is `lowerStr`;
Python's substring test `a in b` is `strIn a b`; machine integers do not occur
except as 32-bit words inside SHA-256, tracked with explicit `% 2^32`.
-/

/-! ## String helpers (Python `str.lower`, `in`, membership) -/

/-- Python `s.lower()` (ASCII case folding; all statuses and transition names
used by the program are ASCII). -/
def lowerStr (s : String) : String := String.mk (s.data.map Char.toLower)

/-- `startsWithL p l`: `p` is an initial segment of `l`. -/
def startsWithL : List Char → List Char → Bool
  | [], _ => true
  | _ :: _, [] => false
  | p :: ps, c :: cs => p == c && startsWithL ps cs

/-- `hasSubL pat hay`: Python `pat in hay` on character lists. -/
def hasSubL (pat : List Char) : List Char → Bool
  | [] => startsWithL pat []
  | c :: cs => startsWithL pat (c :: cs) || hasSubL pat cs

/-- Python `pat in hay` for strings (substring containment). -/
def strIn (pat hay : String) : Bool := hasSubL pat.data hay.data

/-- Python `x in l` for a string and a list of strings (exact membership). -/
def strMem (x : String) (l : List String) : Bool := l.contains x

example : strIn "resolve" (lowerStr "Resolve Issue") = true := by decide
example : strIn "closed" (lowerStr "Auto-Closed") = true := by decide
example : strMem "auto-closed" ["done", "closed"] = false := by decide

/-! ## Ticket transitions (ticket_operations.py, JiraTicketGUI_enhanced.py)

`TicketOperationsManager.close_ticket` filters the available transitions by
the keyword set `['close', 'done', 'complete', 'resolve']`, lowercase-substring
matched against the transition name; `resolve_ticket` uses `['resolve']`.
The enhanced GUI's `close_ticket` uses `['close', 'done', 'complete']` and its
`open_ticket` ("Reopen") uses `['open', 'reopen', 'start']`.  In every case the
transition applied is the first element of the filtered list (for
`TicketOperationsManager.close_ticket` with more than one match, after the
operator confirms "Use the first one?"). -/

/-- A Jira transition as consumed by the program: its display name and the
status it leads to (`to.name` in the REST payload). -/
structure Transition where
  name : String
  toStatus : String
deriving DecidableEq, Repr

namespace TicketOperationsManager

/-- Keyword filter shared by every transition action: keep the transitions
whose lowercased name contains one of the keywords as a substring. -/
def matchingTransitions (keywords : List String) (ts : List Transition) : List Transition :=
  ts.filter (fun t => keywords.any (fun k => strIn k (lowerStr t.name)))

/-- `close_ticket` (ticket_operations.py lines 92-112): keyword set and the
transition finally applied (the first match; with several matches the operator
is asked to confirm the first one). `none` models the
"No close transition available" warning path. -/
def close_ticket_selection (ts : List Transition) : Option Transition :=
  (matchingTransitions ["close", "done", "complete", "resolve"] ts).head?

/-- `resolve_ticket` (ticket_operations.py lines 142-154). -/
def resolve_ticket_selection (ts : List Transition) : Option Transition :=
  (matchingTransitions ["resolve"] ts).head?

end TicketOperationsManager

namespace EnhancedGUI

/-- `close_ticket` of JiraTicketGUI_enhanced.py (lines 1811-1816): keywords
`['close', 'done', 'complete']`, first match applied. -/
def close_ticket_selection (ts : List Transition) : Option Transition :=
  (TicketOperationsManager.matchingTransitions ["close", "done", "complete"] ts).head?

/-- `open_ticket` of JiraTicketGUI_enhanced.py (lines 1833-1837): keywords
`['open', 'reopen', 'start']`, first match applied; with no match the function
silently does nothing. -/
def open_ticket_selection (ts : List Transition) : Option Transition :=
  (TicketOperationsManager.matchingTransitions ["open", "reopen", "start"] ts).head?

end EnhancedGUI

/-- The transition set of the claim: Start Progress → In Progress,
Resolve Issue → Resolved, Close Issue → Closed. -/
def claimTransitions : List Transition :=
  [⟨"Start Progress", "In Progress"⟩, ⟨"Resolve Issue", "Resolved"⟩, ⟨"Close Issue", "Closed"⟩]

/-- C2, counterexample.  On the claimed transition set the cited close action
(`TicketOperationsManager.close_ticket`, whose keyword set contains `resolve`)
matches "Resolve Issue" before "Close Issue" and therefore does not select
"Close Issue"; and the cited reopen action (`open_ticket`) does find a match —
"Start Progress" contains the keyword `start` — so it does not report that no
transition is available.  Either conjunct alone falsifies the claim. -/
theorem C2_counterexample :
    TicketOperationsManager.close_ticket_selection claimTransitions =
      some ⟨"Resolve Issue", "Resolved"⟩ ∧
    EnhancedGUI.open_ticket_selection claimTransitions ≠ none := by
  constructor
  · decide
  · decide

/-- C2, amended.  Given the transition set Start Progress → In Progress,
Resolve Issue → Resolved, Close Issue → Closed: the modular close action
(keywords close/done/complete/resolve) matches both "Resolve Issue" and
"Close Issue" and proceeds with the first match, "Resolve Issue"; the enhanced
GUI's close action (keywords close/done/complete) selects "Close Issue"; the
resolve action selects "Resolve Issue"; and the reopen action selects
"Start Progress" (keyword `start`) instead of reporting that no matching
transition is available. -/
theorem C2_amended :
    TicketOperationsManager.matchingTransitions ["close", "done", "complete", "resolve"]
        claimTransitions =
      [⟨"Resolve Issue", "Resolved"⟩, ⟨"Close Issue", "Closed"⟩] ∧
    TicketOperationsManager.close_ticket_selection claimTransitions =
      some ⟨"Resolve Issue", "Resolved"⟩ ∧
    EnhancedGUI.close_ticket_selection claimTransitions = some ⟨"Close Issue", "Closed"⟩ ∧
    TicketOperationsManager.resolve_ticket_selection claimTransitions =
      some ⟨"Resolve Issue", "Resolved"⟩ ∧
    EnhancedGUI.open_ticket_selection claimTransitions = some ⟨"Start Progress", "In Progress"⟩ := by
  refine ⟨by decide, by decide, by decide, by decide, by decide⟩

/-! ## Client-side filtering (search_filter.py, JiraTicketGUI_enhanced.py)

Both filter functions iterate over the cached issues and keep an issue exactly
when it survives the ownership filter, the (modular-only) issue-type filter and
the hide-completed filter.  The completed-status word list is
`['done', 'closed', 'resolved', 'complete', 'completed', 'finished']` in both
files, but search_filter.py line 139 tests `status in completed_statuses` —
Python list membership, i.e. exact equality of the lowercased status with one
of the six words — while JiraTicketGUI_enhanced.py line 846 tests
`any(completed_status in status_name ...)` — substring containment. -/

/-- The fields of a cached issue consumed by the filter functions.  `reporter`
and `assignee` are the `emailAddress` of the respective user object, `none`
when the user object is absent (Python `None`). -/
structure FilterTicket where
  reporter : Option String
  assignee : Option String
  issuetype : String
  status : String
deriving DecidableEq, Repr

/-- `completed_statuses` as defined in both filter functions. -/
def completed_statuses : List String :=
  ["done", "closed", "resolved", "complete", "completed", "finished"]

namespace SearchFilterManager

/-- One iteration of the loop of `SearchFilterManager.filter_tickets`
(search_filter.py lines 111-142): `true` when the issue is appended to
`tickets_to_show`, `false` when one of the `continue` branches fires.
Note line 139: `if status in completed_statuses` is exact list membership. -/
def keepTicket (ticket_filter issue_type_filter : String) (hide_completed : Bool)
    (user_email : String) (t : FilterTicket) : Bool :=
  (if ticket_filter == "My Tickets" then
    strMem user_email [t.reporter.getD "", t.assignee.getD ""]
  else if ticket_filter == "Unassigned" then
    t.assignee.isNone
  else true) &&
  (if issue_type_filter != "All" then t.issuetype == issue_type_filter else true) &&
  (if hide_completed then !(strMem (lowerStr t.status) completed_statuses) else true)

/-- `filter_tickets` (search_filter.py lines 92-145), restricted to the
`tickets_to_show` computation. -/
def filter_tickets (ticket_filter issue_type_filter : String) (hide_completed : Bool)
    (user_email : String) (all_tickets : List FilterTicket) : List FilterTicket :=
  all_tickets.filter (keepTicket ticket_filter issue_type_filter hide_completed user_email)

end SearchFilterManager

namespace EnhancedGUI

/-- Substring test of JiraTicketGUI_enhanced.py lines 832/846:
`any(completed_status in status_name for completed_status in completed_statuses)`
on the lowercased status name. -/
def isCompletedStatus (status : String) : Bool :=
  completed_statuses.any (fun c => strIn c (lowerStr status))

/-- One iteration of the loop of the enhanced `filter_tickets`
(JiraTicketGUI_enhanced.py lines 816-850). -/
def keepTicket (ticket_filter : String) (hide_completed : Bool)
    (user_email : String) (t : FilterTicket) : Bool :=
  (if ticket_filter == "My Tickets" then
    strMem user_email [t.reporter.getD "", t.assignee.getD ""]
  else if ticket_filter == "All Open" then
    !isCompletedStatus t.status
  else if ticket_filter == "Unassigned" then
    t.assignee.isNone
  else true) &&
  (if hide_completed && ticket_filter != "All Open" then !isCompletedStatus t.status else true)

/-- The enhanced `filter_tickets` (JiraTicketGUI_enhanced.py lines 800-856),
restricted to the `tickets_to_show` computation. -/
def filter_tickets (ticket_filter : String) (hide_completed : Bool)
    (user_email : String) (all_tickets : List FilterTicket) : List FilterTicket :=
  all_tickets.filter (keepTicket ticket_filter hide_completed user_email)

end EnhancedGUI

/-- C3, counterexample.  A ticket whose status is "Auto-Closed" has a lowercased
status name that contains "closed" as a substring, so by the claim the filter
operation (the claim cites `SearchFilterManager.filter_tickets`) must drop it
when hide-completed is on; but search_filter.py tests exact list membership,
and "auto-closed" is not one of the six words, so the ticket passes. -/
theorem C3_counterexample :
    strIn "closed" (lowerStr "Auto-Closed") = true ∧
    SearchFilterManager.filter_tickets "All Tickets" "All" true "me@x.com"
        [⟨none, none, "[System] Incident", "Auto-Closed"⟩] =
      [⟨none, none, "[System] Incident", "Auto-Closed"⟩] := by
  exact ⟨by decide, by decide⟩

/-- C3, amended.  With hide-completed enabled and the ownership filter at its
"All Tickets" default (in particular not `All Open`) and the issue-type filter
at `All`: the *enhanced* variant's filter keeps a ticket exactly when its
lowercased status name contains none of done/closed/resolved/complete/completed/
finished as a substring, while the modular `SearchFilterManager.filter_tickets`
keeps a ticket exactly when its lowercased status name is not *equal* to one of
those six words (exact membership, not substring containment). -/
theorem C3_amended :
    ∀ (u : String) (t : FilterTicket),
      EnhancedGUI.keepTicket "All Tickets" true u t
          = !(completed_statuses.any (fun c => strIn c (lowerStr t.status))) ∧
      SearchFilterManager.keepTicket "All Tickets" "All" true u t
          = !(strMem (lowerStr t.status) completed_statuses) := by
  intro u t
  constructor
  · simp [EnhancedGUI.keepTicket, EnhancedGUI.isCompletedStatus]
  · simp [SearchFilterManager.keepTicket]

/-! ## SLA detection (JiraTicketGUI_enhanced.py, `is_sla_missed`, lines 577-604)

The function reads the issue's status name, priority name and `created`
timestamp; completed tickets (substring test against `completed_statuses`) are
never flagged, tickets without a created timestamp are never flagged, and
otherwise the flag is `hours_since_created > 96` with
`hours_since_created = (now - created).total_seconds() / 3600`.

Modelled: timestamps are seconds since an arbitrary epoch (rationals appear
only through the exact division by 3600); a missing or unparseable `created`
field is `none` (the code returns `False` for both: the empty-string guard at
line 591 and the bare `except` at line 603). -/

/-- The fields of an issue consumed by `is_sla_missed`. -/
structure SlaTicket where
  status : String
  priority : String
  created : Option Int
deriving DecidableEq, Repr

namespace EnhancedGUI

/-- `is_sla_missed` (JiraTicketGUI_enhanced.py lines 577-604).  `now` is the
current wall-clock time in seconds. -/
def is_sla_missed (now : Int) (t : SlaTicket) : Bool :=
  if isCompletedStatus t.status then false
  else
    match t.created with
    | none => false
    | some created =>
        decide ((((now : ℚ) - (created : ℚ)) / 3600) > 96)

end EnhancedGUI

/-- C5.  For a ticket whose status name contains no completed substring and
which carries a created timestamp, `is_sla_missed` is true iff more than
96 hours have elapsed since creation; the result never depends on the priority
(third conjunct); and a ticket whose status contains a completed substring is
never flagged. -/
theorem C5_sla_flat_96h :
    (∀ (now created : Int) (st pr : String),
      EnhancedGUI.isCompletedStatus st = false →
      (EnhancedGUI.is_sla_missed now ⟨st, pr, some created⟩ = true ↔
        ((now : ℚ) - (created : ℚ)) / 3600 > 96)) ∧
    (∀ (now : Int) (st pr pr' : String) (c : Option Int),
      EnhancedGUI.is_sla_missed now ⟨st, pr, c⟩ = EnhancedGUI.is_sla_missed now ⟨st, pr', c⟩) ∧
    (∀ (now : Int) (st pr : String) (c : Option Int),
      EnhancedGUI.isCompletedStatus st = true →
      EnhancedGUI.is_sla_missed now ⟨st, pr, c⟩ = false) := by
  refine ⟨?_, ?_, ?_⟩
  · intro now created st pr h
    simp [EnhancedGUI.is_sla_missed, h]
  · intro now st pr pr' c
    simp [EnhancedGUI.is_sla_missed]
  · intro now st pr c h
    simp [EnhancedGUI.is_sla_missed, h]

/-- C5, witness: a non-completed ticket aged 96h plus one second is flagged
(and the hypothesis of the theorem holds at status "Open"). -/
theorem C5_sla_flat_96h_witness :
    EnhancedGUI.isCompletedStatus "Open" = false ∧
    EnhancedGUI.is_sla_missed 345601 ⟨"Open", "low", some 0⟩ = true := by
  refine ⟨by decide, ?_⟩
  exact (C5_sla_flat_96h.1 345601 0 "Open" "low" (by decide)).mpr (by norm_num)

/-! ## Due reminders (reminder_manager.py, `get_due_reminders`, lines 91-111)

Modelled: `due_date` and `snoozed_until` are stored as ISO-8601 strings and
parsed with `datetime.fromisoformat` at every check; here they are kept as
timestamps in seconds (`Option Int` for `snoozed_until`, whose `None`/absent
case is the falsy branch of `reminder.get("snoozed_until")`). -/

/-- A reminder record with the fields `get_due_reminders` consumes. -/
structure Reminder where
  id : Nat
  title : String
  completed : Bool
  snoozed_until : Option Int
  due_date : Int
deriving DecidableEq, Repr

namespace ReminderManager

/-- `get_due_reminders` (reminder_manager.py lines 91-111): skip completed
reminders; skip reminders whose snooze time is still in the future
(`now < snooze_time`); keep those with `now >= due_date`. -/
def get_due_reminders (now : Int) (reminders : List Reminder) : List Reminder :=
  reminders.filter (fun r =>
    !r.completed &&
    (match r.snoozed_until with
     | some s => !(now < s)
     | none => true) &&
    decide (now ≥ r.due_date))

end ReminderManager

/-- C6.  A stored reminder is returned by `get_due_reminders` iff it is not
completed, its snooze time (if set) is not in the future, and its due date has
passed. -/
theorem C6_due_reminders :
    ∀ (now : Int) (rs : List Reminder) (r : Reminder),
      r ∈ ReminderManager.get_due_reminders now rs ↔
        r ∈ rs ∧ r.completed = false ∧
          (∀ s, r.snoozed_until = some s → s ≤ now) ∧ r.due_date ≤ now := by
  intro now rs r
  simp only [ReminderManager.get_due_reminders, List.mem_filter, Bool.and_eq_true,
    Bool.not_eq_true', decide_eq_true_eq, ge_iff_le]
  constructor
  · rintro ⟨hm, ⟨hc, hs⟩, hd⟩
    refine ⟨hm, hc, ?_, hd⟩
    intro s hs'
    rw [hs'] at hs
    simpa using hs
  · rintro ⟨hm, hc, hs, hd⟩
    refine ⟨hm, ⟨hc, ?_⟩, hd⟩
    cases h : r.snoozed_until with
    | none => simp
    | some s => simpa using hs s h

/-! ## Comment monitor (comment_monitor.py)

`CommentMonitor` keeps `known_comments : dict ticket_key -> list of comment
ids`.  `_monitor_loop` (lines 37-45) first runs `_scan_current_tickets`
(lines 47-57), which only records the current comment-id list of every cached
ticket with a truthy key and a non-empty comment list — it never touches
`new_comments` and never schedules a notification.  Every later cycle runs
`_check_for_new_comments` (lines 69-108), which per ticket diffs the current
ids against the known ids (only for tickets already present in the map),
collects one entry per new comment, unconditionally refreshes the map entry,
and schedules one notification iff the collected list is non-empty.  The
notification window renders each entry as
`f"{ticket_key} - New comment from {author}"`. -/

/-- A comment as consumed by the monitor: its id and its author's display
name. -/
structure MComment where
  id : String
  author : String
deriving DecidableEq, Repr

/-- A cached ticket together with the comments the backend currently returns
for it (`_get_ticket_comments`). -/
structure MTicket where
  key : String
  summary : String
  comments : List MComment
deriving DecidableEq, Repr

/-- The `known_comments` dict, as an association list. -/
def KnownMap := List (String × List String)

/-- Dict lookup. -/
def kmLookup : KnownMap → String → Option (List String)
  | [], _ => none
  | (k, v) :: tl, key => if k == key then some v else kmLookup tl key

/-- Dict assignment `known_comments[key] = v`. -/
def kmSet : KnownMap → String → List String → KnownMap
  | [], key, v => [(key, v)]
  | (k, w) :: tl, key, v => if k == key then (k, v) :: tl else (k, w) :: kmSet tl key v

namespace CommentMonitor

/-- `[c['id'] for c in comments]`. -/
def commentIds (t : MTicket) : List String := t.comments.map (fun c => c.id)

/-- `_scan_current_tickets` (lines 47-57): record the id list of every ticket
with a truthy key and a non-empty comment list; nothing else happens. -/
def scan_current_tickets (m : KnownMap) : List MTicket → KnownMap
  | [] => m
  | t :: ts =>
      if t.key == "" then scan_current_tickets m ts
      else if t.comments.isEmpty then scan_current_tickets m ts
      else scan_current_tickets (kmSet m t.key (commentIds t)) ts

/-- One entry of `new_comments_found` (lines 96-100). -/
structure NewCommentEntry where
  ticket_key : String
  ticket_summary : String
  comment : MComment
deriving DecidableEq, Repr

/-- The entries contributed by a single ticket in `_check_for_new_comments`
(lines 88-100): nothing when the ticket is not yet tracked; otherwise one
entry per comment whose id is not among the known ids. -/
def ticketNewEntries (m : KnownMap) (t : MTicket) : List NewCommentEntry :=
  match kmLookup m t.key with
  | none => []
  | some knownIds =>
      let newIds := (commentIds t).filter (fun i => !(knownIds.contains i))
      if newIds.isEmpty then []
      else (t.comments.filter (fun c => newIds.contains c.id)).map
        (fun c => ⟨t.key, t.summary, c⟩)

/-- Result of one `_check_for_new_comments` pass. -/
structure CheckResult where
  found : List NewCommentEntry
  known : KnownMap

/-- `_check_for_new_comments` (lines 69-108): per ticket (skipping falsy keys
and empty comment lists) collect the new entries, then unconditionally refresh
the map entry; entries accumulate in ticket order.  A notification is
scheduled iff `found` is non-empty. -/
def check_for_new_comments (m : KnownMap) : List MTicket → CheckResult
  | [] => ⟨[], m⟩
  | t :: ts =>
      if t.key == "" then check_for_new_comments m ts
      else if t.comments.isEmpty then check_for_new_comments m ts
      else
        let entries := ticketNewEntries m t
        let r := check_for_new_comments (kmSet m t.key (commentIds t)) ts
        ⟨entries ++ r.found, r.known⟩

/-- The monitor's mutable state: the known-id map and the pending
`new_comments` list backing the notification dialog. -/
structure MonitorState where
  known : KnownMap
  new_comments : List NewCommentEntry

/-- The first action of `_monitor_loop` (line 40): the baseline scan.  It
returns only an updated map; `new_comments` is untouched and
`_show_notification` is never scheduled. -/
def first_scan (st : MonitorState) (ts : List MTicket) : MonitorState :=
  ⟨scan_current_tickets st.known ts, st.new_comments⟩

/-- One later cycle (lines 42-45 plus 105-108): run the check; if it found
anything, extend `new_comments` (and schedule the notification dialog). -/
def check_step (st : MonitorState) (ts : List MTicket) : MonitorState × List NewCommentEntry :=
  let r := check_for_new_comments st.known ts
  (⟨r.known, if r.found.isEmpty then st.new_comments else st.new_comments ++ r.found⟩, r.found)

/-- The line shown by `_show_notification` for one entry (line 156). -/
def notificationLine (e : NewCommentEntry) : String :=
  e.ticket_key ++ " - New comment from " ++ e.comment.author

end CommentMonitor

namespace CommentMonitor

theorem kmLookup_set_self (m : KnownMap) (k : String) (v : List String) :
    kmLookup (kmSet m k v) k = some v := by
  induction m with
  | nil => simp [kmSet, kmLookup]
  | cons hd tl ih =>
      obtain ⟨k', w⟩ := hd
      by_cases h : k' == k
      · simp [kmSet, kmLookup, h]
      · simp only [kmSet, h, Bool.false_eq_true, if_false, kmLookup, ih]

theorem kmLookup_set_other (m : KnownMap) (k k' : String) (v : List String)
    (h : k' ≠ k) : kmLookup (kmSet m k v) k' = kmLookup m k' := by
  induction m with
  | nil =>
      simp only [kmSet, kmLookup]
      have : (k == k') = false := by
        simp [beq_eq_false_iff_ne]
        exact fun hk => h hk.symm
      simp [this]
  | cons hd tl ih =>
      obtain ⟨k0, w⟩ := hd
      by_cases h0 : k0 == k
      · have hk0 : k0 = k := by simpa using h0
        have : (k == k') = false := by
          simp [beq_eq_false_iff_ne]
          exact fun hk => h hk.symm
        simp [kmSet, kmLookup, h0, hk0, this]
      · by_cases h1 : k0 == k'
        · simp [kmSet, kmLookup, h0, h1]
        · simp [kmSet, kmLookup, h0, h1, ih]

/-- Scanning tickets none of which carries the key `key` leaves the `key`
entry of the map unchanged. -/
theorem scan_lookup_of_notmem (ts : List MTicket) (m : KnownMap) (key : String)
    (h : ∀ t ∈ ts, t.key ≠ key) :
    kmLookup (scan_current_tickets m ts) key = kmLookup m key := by
  induction ts generalizing m with
  | nil => rfl
  | cons t ts ih =>
      have ht : t.key ≠ key := h t (by simp)
      have htail : ∀ t' ∈ ts, t'.key ≠ key := fun t' h' => h t' (by simp [h'])
      by_cases h1 : t.key == ""
      · simp only [scan_current_tickets, h1, if_true]
        exact ih _ htail
      · by_cases h2 : t.comments.isEmpty
        · simp only [scan_current_tickets, h1, Bool.false_eq_true, if_false, h2, if_true]
          exact ih _ htail
        · simp only [scan_current_tickets, h1, Bool.false_eq_true, if_false, h2]
          rw [ih _ htail, kmLookup_set_other _ _ _ _ ht.symm]
      

/-- A tracked ticket (truthy key, non-empty comments) has its current id list
in the map after a scan, provided the scanned keys are distinct. -/
theorem scan_lookup_of_mem (ts : List MTicket) (m : KnownMap) (t : MTicket)
    (hmem : t ∈ ts) (hkey : t.key ≠ "") (hc : t.comments ≠ [])
    (hnd : (ts.map (fun x => x.key)).Nodup) :
    kmLookup (scan_current_tickets m ts) t.key = some (commentIds t) := by
  induction ts generalizing m with
  | nil => cases hmem
  | cons t0 ts ih =>
      have hnd' : (ts.map (fun x => x.key)).Nodup := (List.nodup_cons.mp hnd).2
      have hno : t0.key ∉ ts.map (fun x => x.key) := (List.nodup_cons.mp hnd).1
      rcases List.mem_cons.mp hmem with heq | hmem'
      · subst heq
        have h1 : (t.key == "") = false := by simpa [beq_eq_false_iff_ne] using hkey
        have h2 : t.comments.isEmpty = false := by
          cases h : t.comments with
          | nil => exact absurd h hc
          | cons a l => simp [List.isEmpty]
        simp only [scan_current_tickets, h1, Bool.false_eq_true, if_false, h2]
        rw [scan_lookup_of_notmem]
        · exact kmLookup_set_self _ _ _
        · intro t' ht' heqk
          exact hno (heqk ▸ List.mem_map_of_mem (fun x => x.key) ht')
      · by_cases h1 : t0.key == ""
        · simp only [scan_current_tickets, h1, if_true]
          exact ih _ hmem' hnd'
        · by_cases h2 : t0.comments.isEmpty
          · simp only [scan_current_tickets, h1, Bool.false_eq_true, if_false, h2, if_true]
            exact ih _ hmem' hnd'
          · simp only [scan_current_tickets, h1, Bool.false_eq_true, if_false, h2]
            exact ih _ hmem' hnd'

/-- `l.filter (fun i => !(l.contains i)) = []`: nothing in a list is new
relative to the list itself. -/
theorem filter_not_contains_self {α : Type} [BEq α] [LawfulBEq α] (l : List α) :
    l.filter (fun i => !(l.contains i)) = [] := by
  apply List.filter_eq_nil_iff.mpr
  intro a ha
  simp [List.contains, ha]

/-- A check pass over tickets whose tracked id lists are unchanged finds
nothing and leaves the map extensionally unchanged. -/
theorem check_unchanged (ts : List MTicket) (m : KnownMap)
    (h : ∀ t ∈ ts, t.key ≠ "" → t.comments ≠ [] →
      kmLookup m t.key = some (commentIds t)) :
    (check_for_new_comments m ts).found = [] ∧
    ∀ key, kmLookup (check_for_new_comments m ts).known key = kmLookup m key := by
  induction ts generalizing m with
  | nil => exact ⟨rfl, fun _ => rfl⟩
  | cons t0 ts ih =>
      have htail : ∀ t ∈ ts, t.key ≠ "" → t.comments ≠ [] →
          kmLookup m t.key = some (commentIds t) :=
        fun t ht => h t (by simp [ht])
      by_cases h1 : t0.key == ""
      · simp only [check_for_new_comments, h1, if_true]
        exact ih _ htail
      · by_cases h2 : t0.comments.isEmpty
        · simp only [check_for_new_comments, h1, Bool.false_eq_true, if_false, h2, if_true]
          exact ih _ htail
        · have hkey : t0.key ≠ "" := by simpa [beq_eq_false_iff_ne] using h1
          have hc : t0.comments ≠ [] := by
            intro hnil
            rw [hnil] at h2
            simp [List.isEmpty] at h2
          have hlook : kmLookup m t0.key = some (commentIds t0) := h t0 (by simp) hkey hc
          have hent : ticketNewEntries m t0 = [] := by
            simp only [ticketNewEntries, hlook, filter_not_contains_self, List.isEmpty_nil,
              if_true]
          have hpres : ∀ key, kmLookup (kmSet m t0.key (commentIds t0)) key = kmLookup m key := by
            intro key
            by_cases hk : key = t0.key
            · rw [hk, kmLookup_set_self, hlook]
            · exact kmLookup_set_other _ _ _ _ hk
          have htail' : ∀ t ∈ ts, t.key ≠ "" → t.comments ≠ [] →
              kmLookup (kmSet m t0.key (commentIds t0)) t.key = some (commentIds t) := by
            intro t ht hk hc'
            rw [hpres t.key]
            exact htail t ht hk hc'
          obtain ⟨hf, hm⟩ := ih _ htail'
          constructor
          · simp only [check_for_new_comments, h1, Bool.false_eq_true, if_false, h2, hent, hf]
            rfl
          · intro key
            simp only [check_for_new_comments, h1, Bool.false_eq_true, if_false, h2]
            rw [hm key, hpres key]

/-- Splitting a check pass across an append. -/
theorem check_append (l1 l2 : List MTicket) (m : KnownMap) :
    check_for_new_comments m (l1 ++ l2) =
      ⟨(check_for_new_comments m l1).found ++
         (check_for_new_comments (check_for_new_comments m l1).known l2).found,
       (check_for_new_comments (check_for_new_comments m l1).known l2).known⟩ := by
  induction l1 generalizing m with
  | nil => simp [check_for_new_comments]
  | cons t ts ih =>
      by_cases h1 : t.key == ""
      · simp only [List.cons_append, check_for_new_comments, h1, if_true]
        exact ih m
      · by_cases h2 : t.comments.isEmpty
        · simp only [List.cons_append, check_for_new_comments, h1, Bool.false_eq_true,
            if_false, h2, if_true]
          exact ih m
        · simp only [List.cons_append, check_for_new_comments, h1, Bool.false_eq_true,
            if_false, h2, List.append_eq]
          rw [ih]
          simp [List.append_assoc]

end CommentMonitor

/-- C7.  First conjunct: the baseline scan (`_scan_current_tickets`, run as the
first action of `_monitor_loop`) never touches the pending-notification list —
no notification results from it even though every comment id is new to the map.
Second conjunct: if, relative to the scanned baseline, exactly one comment `c`
with a fresh id has been added to one tracked ticket `k` (a ticket with a
truthy key and a non-empty baseline comment list) and the cached tickets have
distinct keys, then the next `_check_for_new_comments` pass reports exactly one
entry — carrying that ticket's key and rendered by the notification dialog as
`"{k} - New comment from {author}"` — and afterwards the known-id map holds the
ticket's latest id set. -/
theorem C7_monitor_baseline_and_diff :
    (∀ (st : CommentMonitor.MonitorState) (ts : List MTicket),
      (CommentMonitor.first_scan st ts).new_comments = st.new_comments) ∧
    (∀ (pre post : List MTicket) (k summ : String) (cs : List MComment) (c : MComment),
      ((pre ++ (⟨k, summ, cs⟩ : MTicket) :: post).map (fun t => t.key)).Nodup →
      k ≠ "" → cs ≠ [] → c.id ∉ cs.map (fun x => x.id) →
      (CommentMonitor.check_for_new_comments
          (CommentMonitor.scan_current_tickets [] (pre ++ (⟨k, summ, cs⟩ : MTicket) :: post))
          (pre ++ (⟨k, summ, cs ++ [c]⟩ : MTicket) :: post)).found
        = [⟨k, summ, c⟩] ∧
      (CommentMonitor.check_for_new_comments
          (CommentMonitor.scan_current_tickets [] (pre ++ (⟨k, summ, cs⟩ : MTicket) :: post))
          (pre ++ (⟨k, summ, cs ++ [c]⟩ : MTicket) :: post)).found.map
            CommentMonitor.notificationLine
        = [k ++ " - New comment from " ++ c.author] ∧
      kmLookup (CommentMonitor.check_for_new_comments
          (CommentMonitor.scan_current_tickets [] (pre ++ (⟨k, summ, cs⟩ : MTicket) :: post))
          (pre ++ (⟨k, summ, cs ++ [c]⟩ : MTicket) :: post)).known k
        = some ((cs ++ [c]).map (fun x => x.id))) := by
  constructor
  · intro st ts
    rfl
  · intro pre post k summ cs c hnd hk hcs hnew
    set tk : MTicket := ⟨k, summ, cs⟩ with htk
    set tk' : MTicket := ⟨k, summ, cs ++ [c]⟩ with htk'
    set ts0 : List MTicket := pre ++ tk :: post with hts0
    -- keys of pre and post differ from k
    have hndmap := hnd
    rw [List.map_append, List.map_cons] at hndmap
    have hpre_k : ∀ t ∈ pre, t.key ≠ k := by
      intro t ht heq
      have h1 : t.key ∈ pre.map (fun t => t.key) := List.mem_map_of_mem _ ht
      have := (List.nodup_append.mp hndmap).2.2
      exact absurd (heq ▸ h1) (by
        intro hmem
        exact (List.disjoint_left.mp this) hmem (by simp [htk]))
    have hpost_k : ∀ t ∈ post, t.key ≠ k := by
      intro t ht heq
      have h2 := (List.nodup_append.mp hndmap).2.1
      have := (List.nodup_cons.mp h2).1
      exact this (by simpa [htk, heq] using List.mem_map_of_mem (fun t => t.key) ht)
    -- baseline lookups
    have hscan_mem : ∀ t ∈ ts0, t.key ≠ "" → t.comments ≠ [] →
        kmLookup (CommentMonitor.scan_current_tickets [] ts0) t.key
          = some (CommentMonitor.commentIds t) := by
      intro t ht hk' hc'
      exact CommentMonitor.scan_lookup_of_mem ts0 [] t ht hk' hc' hnd
    have hlook_k : kmLookup (CommentMonitor.scan_current_tickets [] ts0) k
        = some (cs.map (fun x => x.id)) := by
      have := hscan_mem tk (by simp [hts0]) (by simpa [htk] using hk) (by simpa [htk] using hcs)
      simpa [htk, CommentMonitor.commentIds] using this
    set known0 := CommentMonitor.scan_current_tickets [] ts0 with hknown0
    -- the check pass over pre finds nothing and preserves the map
    have hpre_unch := CommentMonitor.check_unchanged pre known0 (by
      intro t ht hk' hc'
      exact hscan_mem t (List.mem_append_left _ ht) hk' hc')
    obtain ⟨hpre_found, hpre_pres⟩ := hpre_unch
    -- unfold the middle ticket
    have hkguard : (tk'.key == "") = false := by
      simpa [htk', beq_eq_false_iff_ne] using hk
    have hcguard : tk'.comments.isEmpty = false := by
      rw [htk']
      cases cs <;> simp [List.isEmpty]
    set m1 := (CommentMonitor.check_for_new_comments known0 pre).known with hm1
    have hlook_k1 : kmLookup m1 k = some (cs.map (fun x => x.id)) := by
      rw [hm1, hpre_pres k, hlook_k]
    -- the new-id diff for the middle ticket
    have hcontains : ((cs.map (fun x => x.id)).contains c.id) = false := by
      simp [List.contains, hnew]
    have hnewIds :
        ((CommentMonitor.commentIds tk').filter
          (fun i => !((cs.map (fun x => x.id)).contains i))) = [c.id] := by
      simp only [CommentMonitor.commentIds, htk', List.map_append, List.filter_append]
      rw [CommentMonitor.filter_not_contains_self]
      simp only [List.map_cons, List.map_nil, List.filter_cons, hcontains, Bool.not_false,
        if_true, List.filter_nil, List.nil_append]
    have hcs_filter : (cs.filter (fun cm => ([c.id] : List String).contains cm.id)) = [] := by
      apply List.filter_eq_nil_iff.mpr
      intro cm hcm
      have : cm.id ≠ c.id := by
        intro heq
        exact hnew (heq ▸ List.mem_map_of_mem (fun x => x.id) hcm)
      simp [List.contains, this]
    have hentries : CommentMonitor.ticketNewEntries m1 tk' = [⟨k, summ, c⟩] := by
      rw [CommentMonitor.ticketNewEntries]
      have : tk'.key = k := by simp [htk']
      rw [this, hlook_k1]
      simp only [hnewIds]
      simp only [List.isEmpty_cons, if_false, Bool.false_eq_true]
      have hfil : tk'.comments.filter (fun cm => ([c.id] : List String).contains cm.id) = [c] := by
        simp only [htk', List.filter_append, hcs_filter]
        simp [List.contains]
      rw [hfil]
      simp [htk']
    -- the check pass over post finds nothing and preserves the map
    set m2 := kmSet m1 tk'.key (CommentMonitor.commentIds tk') with hm2
    have hpost_unch := CommentMonitor.check_unchanged post m2 (by
      intro t ht hk' hc'
      rw [hm2]
      have hne : t.key ≠ tk'.key := by simpa [htk'] using hpost_k t ht
      rw [CommentMonitor.kmLookup_set_other _ _ _ _ hne, hm1, hpre_pres t.key]
      exact hscan_mem t (List.mem_append_right _ (List.mem_cons_of_mem _ ht)) hk' hc')
    obtain ⟨hpost_found, hpost_pres⟩ := hpost_unch
    -- assemble
    rw [CommentMonitor.check_append]
    have hmid : CommentMonitor.check_for_new_comments m1 (tk' :: post) =
        ⟨CommentMonitor.ticketNewEntries m1 tk' ++
          (CommentMonitor.check_for_new_comments m2 post).found,
         (CommentMonitor.check_for_new_comments m2 post).known⟩ := by
      rw [CommentMonitor.check_for_new_comments]
      simp only [hkguard, Bool.false_eq_true, if_false, hcguard, hm2]
    refine ⟨?_, ?_, ?_⟩
    · simp only [hmid, ← hm1, hpre_found, hentries, hpost_found]
      simp
    · simp only [hmid, ← hm1, hpre_found, hentries, hpost_found]
      simp [CommentMonitor.notificationLine]
    · simp only [hmid, ← hm1]
      rw [hpost_pres k, hm2]
      have : tk'.key = k := by simp [htk']
      rw [this, CommentMonitor.kmLookup_set_self]
      simp [htk', CommentMonitor.commentIds]

/-- C7, witness: two cached tickets with one baseline comment each; ticket
ITS-2 gains one new comment by Carol; the check reports exactly that one entry
and refreshes the map. -/
theorem C7_monitor_baseline_and_diff_witness :
    (CommentMonitor.check_for_new_comments
        (CommentMonitor.scan_current_tickets []
          [⟨"ITS-1", "Printer", [⟨"10001", "Alice"⟩]⟩,
           (⟨"ITS-2", "VPN", [⟨"20001", "Bob"⟩]⟩ : MTicket)])
        [⟨"ITS-1", "Printer", [⟨"10001", "Alice"⟩]⟩,
         (⟨"ITS-2", "VPN", [⟨"20001", "Bob"⟩, ⟨"20002", "Carol"⟩]⟩ : MTicket)]).found
      = [⟨"ITS-2", "VPN", ⟨"20002", "Carol"⟩⟩] ∧
    (CommentMonitor.check_for_new_comments
        (CommentMonitor.scan_current_tickets []
          [⟨"ITS-1", "Printer", [⟨"10001", "Alice"⟩]⟩,
           (⟨"ITS-2", "VPN", [⟨"20001", "Bob"⟩]⟩ : MTicket)])
        [⟨"ITS-1", "Printer", [⟨"10001", "Alice"⟩]⟩,
         (⟨"ITS-2", "VPN", [⟨"20001", "Bob"⟩, ⟨"20002", "Carol"⟩]⟩ : MTicket)]).found.map
          CommentMonitor.notificationLine
      = ["ITS-2 - New comment from Carol"] := by
  have h := (C7_monitor_baseline_and_diff.2
    [⟨"ITS-1", "Printer", [⟨"10001", "Alice"⟩]⟩] [] "ITS-2" "VPN"
    [⟨"20001", "Bob"⟩] ⟨"20002", "Carol"⟩
    (by decide) (by decide) (by decide) (by decide))
  exact ⟨h.1, h.2.1⟩

/-! ## AI settings and response post-processing (ai_settings.py, ai_summarizer.py)

`AISettings.get_signature_block` (ai_settings.py lines 52-61) renders the
configured signature block.  `AITicketSummarizer._format_triage_response`
(ai_summarizer.py lines 298-347) post-processes the model's `triage_response`
deterministically: encoding cleanup, truncation at the first AI-generated
signature phrase, regex passes that give numbered items and "Your response:"
markers their own lines, newline collapsing, stripping, and finally the
configured signature block appended after one blank line.

The `re.sub` passes are modelled as fuel-indexed scans (the fuel is the input
length; every step consumes at least one character, so the fuel never runs
out); each scan reproduces the regex's leftmost, non-overlapping matching.
`r'Your response:\s*(?!\n\n)'` is modelled without the lookahead: `\s*` is
greedy, so the characters after the match are never whitespace, and the
negative lookahead `(?!\n\n)` can never fail. -/

/-- Python's `\s` for the ASCII range (space, tab, newline, carriage return,
vertical tab, form feed). -/
def pyWs (c : Char) : Bool :=
  c == ' ' || c == '\t' || c == '\n' || c == '\r' || c == '\x0b' || c == '\x0c'

/-- Python `str.strip()`. -/
def pyStrip (l : List Char) : List Char :=
  ((l.dropWhile pyWs).reverse.dropWhile pyWs).reverse

/-- The AISettings document (ai_settings.py lines 24-31 defaults). -/
structure AISettings where
  agent_name : String
  agent_signature : String
  team_name : String
  include_greeting : Bool
  greeting_style : String
deriving DecidableEq, Repr

/-- The default settings created on first read (ai_settings.py lines 24-31). -/
def AISettings.defaults : AISettings := ⟨"", "Best regards", "Support Team", true, "formal"⟩

/-- `get_signature_block` (ai_settings.py lines 52-61). -/
def AISettings.get_signature_block (s : AISettings) : String :=
  if s.agent_name ≠ "" then
    s.agent_signature ++ ",\n" ++ s.agent_name ++ "\n" ++ s.team_name
  else
    s.agent_signature ++ ",\n" ++ s.team_name

namespace AITicketSummarizer

/-- One character of `_clean_text_for_encoding` (ai_summarizer.py lines
460-470): printable ASCII and tab/newline/carriage return survive, everything
else becomes a space.  (The cp1252 pre-pass of lines 446-458 maps some
characters to spaces that this pass maps to spaces anyway, so the composite is
the same.) -/
def cleanChar (c : Char) : Char :=
  if (32 ≤ c.toNat ∧ c.toNat ≤ 126) ∨ c.toNat = 9 ∨ c.toNat = 10 ∨ c.toNat = 13 then c else ' '

/-- `re.sub(r'\s+', ' ', text)`: collapse every whitespace run to one space.
The flag records whether the previous character was whitespace. -/
def collapseWsGo (prevWs : Bool) : List Char → List Char
  | [] => []
  | c :: rest =>
      if pyWs c then
        if prevWs then collapseWsGo true rest else ' ' :: collapseWsGo true rest
      else c :: collapseWsGo false rest

/-- `_clean_text_for_encoding` (ai_summarizer.py lines 440-476). -/
def clean_text_for_encoding (s : String) : String :=
  String.mk (pyStrip (collapseWsGo false (s.data.map cleanChar)))

/-- `signature_patterns` (ai_summarizer.py lines 309-316). -/
def signature_patterns : List String :=
  ["Best regards,", "Kind regards,", "Regards,", "Thanks,", "Thank you,", "[Your Name]"]

/-- `text.split(pat)[0]`: the part before the first occurrence of `pat`
(the whole text when `pat` does not occur). -/
def beforeFirst (pat : List Char) : List Char → List Char
  | [] => []
  | c :: cs => if startsWithL pat (c :: cs) then [] else c :: beforeFirst pat cs

/-- Lines 318-321: for each pattern in order, when it occurs, truncate at its
first occurrence and strip. -/
def stripAISignatures (resp : List Char) : List Char :=
  signature_patterns.foldl
    (fun r pat => if hasSubL pat.data r then pyStrip (beforeFirst pat.data r) else r) resp

/-- `re.sub(r'(\d+\.)', r'\n\n\1', response)` (line 328): a blank line is
inserted before every maximal digit run followed by a period. -/
def subNumGo : Nat → List Char → List Char
  | 0, l => l
  | _, [] => []
  | fuel + 1, c :: rest =>
      if c.isDigit then
        let ds := (c :: rest).takeWhile Char.isDigit
        match rest.dropWhile Char.isDigit with
        | '.' :: tail => '\n' :: '\n' :: (ds ++ '.' :: subNumGo fuel tail)
        | _ => c :: subNumGo fuel rest
      else c :: subNumGo fuel rest

/-- `re.sub(r'(\?|\.)\s*Your response:', r'\1\n   Your response:', response)`
(line 332). -/
def subRespAGo : Nat → List Char → List Char
  | 0, l => l
  | _, [] => []
  | fuel + 1, c :: rest =>
      if c == '?' || c == '.' then
        if startsWithL "Your response:".data (rest.dropWhile pyWs) then
          c :: '\n' :: ("   Your response:".data ++
            subRespAGo fuel ((rest.dropWhile pyWs).drop 14))
        else c :: subRespAGo fuel rest
      else c :: subRespAGo fuel rest

/-- `re.sub(r'Your response:\s*(?!\n\n)', 'Your response:\n\n', response)`
(line 335); see the section comment for the vacuous lookahead. -/
def subRespBGo : Nat → List Char → List Char
  | 0, l => l
  | _, [] => []
  | fuel + 1, c :: rest =>
      if startsWithL "Your response:".data (c :: rest) then
        "Your response:\n\n".data ++ subRespBGo fuel (((c :: rest).drop 14).dropWhile pyWs)
      else c :: subRespBGo fuel rest

/-- `re.sub(r'\n{3,}', '\n\n', response)` (line 338): collapse maximal newline
runs of length at least three to a blank line. -/
def collapseNLGo : Nat → List Char → List Char
  | 0, l => l
  | _, [] => []
  | fuel + 1, c :: rest =>
      if c == '\n' then
        let run := (c :: rest).takeWhile (fun x => x == '\n')
        let rest' := (c :: rest).dropWhile (fun x => x == '\n')
        if run.length ≥ 3 then '\n' :: '\n' :: collapseNLGo fuel rest'
        else run ++ collapseNLGo fuel rest'
      else c :: collapseNLGo fuel rest

/-- The parsed model result fields `_format_triage_response` consumes. -/
structure AIData where
  ticket_type : String
  triage_response : String
deriving DecidableEq, Repr

/-- `_format_triage_response` (ai_summarizer.py lines 298-347). -/
def format_triage_response (ai : AIData) (settings : AISettings) : String :=
  let response := clean_text_for_encoding ai.triage_response
  let signature := settings.get_signature_block
  let r1 := stripAISignatures response.data
  let r2 := subNumGo r1.length r1
  let r3 := subRespAGo r2.length r2
  let r4 := subRespBGo r3.length r3
  let r5 := collapseNLGo r4.length r4
  let r6 := pyStrip r5
  String.mk (r6 ++ '\n' :: '\n' :: signature.data)

/-- Number of positions at which `pat` occurs in a character list. -/
def countSub (pat : List Char) : List Char → Nat
  | [] => 0
  | c :: cs => (if startsWithL pat (c :: cs) then 1 else 0) + countSub pat cs

end AITicketSummarizer

/-- The fixed status-update acknowledgement of the claim. -/
def ackData : AITicketSummarizer.AIData :=
  ⟨"status_update",
   "Thank you for the update. We have noted the status change and will continue to track this ticket."⟩

/-- C8.  For the fixed status-update result with a short acknowledgement
sentence, the deterministic post-processing leaves the text unrestructured —
the output is exactly the acknowledgement followed by one blank line and the
configured signature block, with no numbered-item or "Your response:"
formatting inserted — and the "Best regards" signature occurs exactly once,
at the end. -/
theorem C8_postprocessing_status_update :
    ackData.ticket_type = "status_update" ∧
    AITicketSummarizer.format_triage_response ackData AISettings.defaults
      = ackData.triage_response ++ "\n\n" ++ AISettings.defaults.get_signature_block ∧
    AISettings.defaults.get_signature_block = "Best regards,\nSupport Team" ∧
    AITicketSummarizer.countSub "Best regards".data
      (AITicketSummarizer.format_triage_response ackData AISettings.defaults).data = 1 ∧
    AITicketSummarizer.countSub "Your response:".data
      (AITicketSummarizer.format_triage_response ackData AISettings.defaults).data = 0 := by
  refine ⟨rfl, by decide, by decide, by decide, by decide⟩

/-! ## Licensing: HMAC-SHA256 (hashlib/hmac as used by license_manager.py)

license_manager.py and license_validator.py sign the canonical JSON encoding
of the license data with `hmac.new(secret, data, hashlib.sha256).hexdigest()`.
SHA-256 (FIPS 180-4) and HMAC (RFC 2104) are implemented below on byte lists;
32-bit words are `Nat` reduced by `w32` (`% 2^32`).  The implementation is
checked against the standard test vectors (the two `example`s). -/

/-- Reduce to a 32-bit word. -/
def w32 (n : Nat) : Nat := n % 4294967296

/-- 32-bit right rotation. -/
def rotr32 (x n : Nat) : Nat := w32 ((x >>> n) ||| (x <<< (32 - n)))

/-- The SHA-256 round constants. -/
def shaK : List Nat := [
  1116352408, 1899447441, 3049323471, 3921009573, 961987163, 1508970993, 2453635748, 2870763221,
  3624381080, 310598401, 607225278, 1426881987, 1925078388, 2162078206, 2614888103, 3248222580,
  3835390401, 4022224774, 264347078, 604807628, 770255983, 1249150122, 1555081692, 1996064986,
  2554220882, 2821834349, 2952996808, 3210313671, 3336571891, 3584528711, 113926993, 338241895,
  666307205, 773529912, 1294757372, 1396182291, 1695183700, 1986661051, 2177026350, 2456956037,
  2730485921, 2820302411, 3259730800, 3345764771, 3516065817, 3600352804, 4094571909, 275423344,
  430227734, 506948616, 659060556, 883997877, 958139571, 1322822218, 1537002063, 1747873779,
  1955562222, 2024104815, 2227730452, 2361852424, 2428436474, 2756734187, 3204031479, 3329325298]

/-- The eight working variables of SHA-256. -/
structure H8 where
  a : Nat
  b : Nat
  c : Nat
  d : Nat
  e : Nat
  f : Nat
  g : Nat
  h : Nat

/-- The SHA-256 initial hash value. -/
def shaH0 : H8 :=
  ⟨1779033703, 3144134277, 1013904242, 2773480762, 1359893119, 2600822924, 528734635, 1541459225⟩

/-- SHA-256 message padding: `0x80`, zeros, and the 64-bit bit length. -/
def padMsg (msg : List Nat) : List Nat :=
  let len := msg.length
  let bitLen := len * 8
  let padZeros := (119 - len % 64) % 64
  msg ++ 0x80 :: List.replicate padZeros 0 ++
    [(bitLen >>> 56) % 256, (bitLen >>> 48) % 256, (bitLen >>> 40) % 256, (bitLen >>> 32) % 256,
     (bitLen >>> 24) % 256, (bitLen >>> 16) % 256, (bitLen >>> 8) % 256, bitLen % 256]

/-- Big-endian 32-bit words from bytes. -/
def toWords : List Nat → List Nat
  | a :: b :: c :: d :: rest => (((a * 256 + b) * 256 + c) * 256 + d) :: toWords rest
  | _ => []

/-- Message-schedule extension from 16 to 64 words (48 fuelled steps). -/
def extendW (fuel : Nat) (w : List Nat) : List Nat :=
  match fuel with
  | 0 => w
  | f + 1 =>
      let i := w.length
      let w15 := w.getD (i - 15) 0
      let w2 := w.getD (i - 2) 0
      let s0 := (rotr32 w15 7) ^^^ (rotr32 w15 18) ^^^ (w15 >>> 3)
      let s1 := (rotr32 w2 17) ^^^ (rotr32 w2 19) ^^^ (w2 >>> 10)
      extendW f (w ++ [w32 (w.getD (i - 16) 0 + s0 + w.getD (i - 7) 0 + s1)])

/-- One SHA-256 compression round, driven by a (constant, schedule word)
pair. -/
def shaRound (st : H8) (kw : Nat × Nat) : H8 :=
  let s1 := (rotr32 st.e 6) ^^^ (rotr32 st.e 11) ^^^ (rotr32 st.e 25)
  let ch := (st.e &&& st.f) ^^^ ((4294967295 - st.e) &&& st.g)
  let t1 := w32 (st.h + s1 + ch + kw.1 + kw.2)
  let s0 := (rotr32 st.a 2) ^^^ (rotr32 st.a 13) ^^^ (rotr32 st.a 22)
  let mj := (st.a &&& st.b) ^^^ (st.a &&& st.c) ^^^ (st.b &&& st.c)
  let t2 := w32 (s0 + mj)
  ⟨w32 (t1 + t2), st.a, st.b, st.c, w32 (st.d + t1), st.e, st.f, st.g⟩

/-- Compress one 64-byte block into the running hash value. -/
def compressBlock (h0 : H8) (block : List Nat) : H8 :=
  let w := extendW 48 (toWords block)
  let st := (shaK.zip w).foldl shaRound h0
  ⟨w32 (h0.a + st.a), w32 (h0.b + st.b), w32 (h0.c + st.c), w32 (h0.d + st.d),
   w32 (h0.e + st.e), w32 (h0.f + st.f), w32 (h0.g + st.g), w32 (h0.h + st.h)⟩

/-- Split into 64-byte blocks (the fuel is the block count). -/
def chunksF : Nat → List Nat → List (List Nat)
  | 0, _ => []
  | _, [] => []
  | f + 1, l => l.take 64 :: chunksF f (l.drop 64)

/-- Big-endian bytes of a 32-bit word. -/
def word4 (n : Nat) : List Nat :=
  [(n >>> 24) % 256, (n >>> 16) % 256, (n >>> 8) % 256, n % 256]

/-- SHA-256 of a byte list, as 32 digest bytes. -/
def sha256 (msg : List Nat) : List Nat :=
  let padded := padMsg msg
  let blocks := chunksF (padded.length / 64) padded
  let hF := blocks.foldl compressBlock shaH0
  word4 hF.a ++ word4 hF.b ++ word4 hF.c ++ word4 hF.d ++
    word4 hF.e ++ word4 hF.f ++ word4 hF.g ++ word4 hF.h

/-- Lowercase hex digit. -/
def hexChar (n : Nat) : Char := "0123456789abcdef".data.getD n '0'

/-- Lowercase hex rendering of bytes (`hexdigest`). -/
def bytesToHex (bs : List Nat) : List Char :=
  bs.flatMap (fun b => [hexChar (b / 16 % 16), hexChar (b % 16)])

/-- `s.encode()` for the ASCII strings this program hashes (json.dumps output
is pure ASCII because `ensure_ascii` is on, and the shared secret is ASCII). -/
def strToBytes (s : String) : List Nat := s.data.map Char.toNat

/-- HMAC-SHA256 (RFC 2104) with a 64-byte block size. -/
def hmacSha256 (key msg : List Nat) : List Nat :=
  let k1 := if key.length > 64 then sha256 key else key
  let k := k1 ++ List.replicate (64 - k1.length) 0
  let ipad := k.map (fun b => b ^^^ 0x36)
  let opad := k.map (fun b => b ^^^ 0x5c)
  sha256 (opad ++ sha256 (ipad ++ msg))

/-- `hmac.new(key.encode(), msg.encode(), hashlib.sha256).hexdigest()`. -/
def hmacHexDigest (key msg : String) : String :=
  String.mk (bytesToHex (hmacSha256 (strToBytes key) (strToBytes msg)))

example : String.mk (bytesToHex (sha256 (strToBytes "abc"))) =
    "ba7816bf8f01cfea414140de5dae2223b00361a396177a9cb410ff61f20015ad" := by rfl

example : hmacHexDigest "key" "The quick brown fox jumps over the lazy dog" =
    "f7bc83f430538424b13298e6aa6fb143ef4d59a14946175997479dbc2d1a3cd8" := by rfl

/-! ## Licensing: base64 (base64.b64encode / b64decode)

`b64decodeStr` models Python's `base64.b64decode(..., validate=False)` on the
inputs the validator can meet: characters outside the alphabet and `=` are
discarded, the remaining length must be a multiple of four, and a padding
group is only accepted in final position. -/

/-- The standard base64 alphabet. -/
def b64chars : List Char :=
  "ABCDEFGHIJKLMNOPQRSTUVWXYZabcdefghijklmnopqrstuvwxyz0123456789+/".data

/-- Character of a 6-bit group. -/
def b64char (n : Nat) : Char := b64chars.getD n 'A'

/-- Position of a character in the alphabet. -/
def idxOfChar (c : Char) : List Char → Nat → Option Nat
  | [], _ => none
  | x :: xs, i => if x == c then some i else idxOfChar c xs (i + 1)

/-- Index of a base64 character, `none` outside the alphabet. -/
def b64idx (c : Char) : Option Nat := idxOfChar c b64chars 0

/-- `base64.b64encode` on bytes. -/
def b64encodeBytes : List Nat → List Char
  | a :: b :: c :: rest =>
      b64char (a / 4) :: b64char ((a % 4) * 16 + b / 16) ::
        b64char ((b % 16) * 4 + c / 64) :: b64char (c % 64) :: b64encodeBytes rest
  | [a, b] => [b64char (a / 4), b64char ((a % 4) * 16 + b / 16), b64char ((b % 16) * 4), '=']
  | [a] => [b64char (a / 4), b64char ((a % 4) * 16), '=', '=']
  | [] => []

/-- Decode four-character groups. -/
def b64decodeGroups : List Char → Option (List Nat)
  | [] => some []
  | c1 :: c2 :: c3 :: c4 :: rest =>
      match b64idx c1, b64idx c2 with
      | some i1, some i2 =>
          if c3 == '=' then
            if c4 == '=' && rest.isEmpty then some [i1 * 4 + i2 / 16] else none
          else
            match b64idx c3 with
            | some i3 =>
                if c4 == '=' then
                  if rest.isEmpty then some [i1 * 4 + i2 / 16, (i2 % 16) * 16 + i3 / 4] else none
                else
                  match b64idx c4 with
                  | some i4 =>
                      (b64decodeGroups rest).map
                        (fun bs => (i1 * 4 + i2 / 16) :: ((i2 % 16) * 16 + i3 / 4) ::
                          ((i3 % 4) * 64 + i4) :: bs)
                  | none => none
            | none => none
      | _, _ => none
  | _ => none

/-- `base64.b64decode(key.encode())`: discard foreign characters, then decode
the four-character groups. -/
def b64decodeStr (s : String) : Option (List Nat) :=
  b64decodeGroups (s.data.filter (fun c => (b64idx c).isSome || c == '='))

example : String.mk (b64encodeBytes (strToBytes "Man")) = "TWFu" := by rfl
example : String.mk (b64encodeBytes (strToBytes "Ma")) = "TWE=" := by rfl
example : b64decodeStr "TWFu" = some (strToBytes "Man") := by rfl
example : b64decodeStr "TWE=" = some (strToBytes "Ma") := by rfl

/-! ## Licensing: JSON (json.dumps / json.loads as used by the licensing code)

Values are modelled by the mutual inductive `JVal`/`JArr`/`JMembers` (object
members keep their textual order, matching the insertion order of Python
dicts).  `dumps` is `json.dumps` with its default separators and
`ensure_ascii`; `dumpsSorted` is `json.dumps(..., sort_keys=True)`.  `jparseL`
is `json.loads` restricted to the fragment the licensing code can produce or
meet, with these modelling simplifications: numbers are integers only (floats
are rejected rather than parsed), the JSON leading-zero restriction is not
enforced, `\uXXXX` escapes decode without surrogate-pair handling, and an
object with duplicate keys keeps all members (Python keeps the last; lookups
below therefore take the last match). -/

mutual
inductive JVal where
  | jstr (s : String)
  | jnum (n : Int)
  | jbool (b : Bool)
  | jnull
  | jarr (xs : JArr)
  | jobj (ms : JMembers)

inductive JArr where
  | nil
  | cons (v : JVal) (tl : JArr)

inductive JMembers where
  | nil
  | cons (k : String) (v : JVal) (tl : JMembers)
end

/-- Decimal digit character. -/
def digitChar (n : Nat) : Char := "0123456789".data.getD n '0'

/-- Decimal rendering of a natural number (the fuel bounds the digit count;
`n + 1` always suffices). -/
def natDecGo : Nat → Nat → List Char
  | 0, _ => []
  | fuel + 1, n => if n < 10 then [digitChar n] else natDecGo fuel (n / 10) ++ [digitChar (n % 10)]

/-- Decimal rendering of a natural number. -/
def natDec (n : Nat) : List Char := natDecGo (n + 1) n

/-- Decimal rendering of an integer (Python `repr` of an `int`). -/
def intDec (n : Int) : List Char :=
  if n < 0 then '-' :: natDec (-n).toNat else natDec n.toNat

/-- JSON string escaping as `json.dumps` performs it (`ensure_ascii` on). -/
def escChar (c : Char) : List Char :=
  if c == '"' then ['\\', '"']
  else if c == '\\' then ['\\', '\\']
  else if c == '\n' then ['\\', 'n']
  else if c == '\t' then ['\\', 't']
  else if c == '\r' then ['\\', 'r']
  else if c.toNat == 8 then ['\\', 'b']
  else if c.toNat == 12 then ['\\', 'f']
  else if c.toNat < 32 || 127 ≤ c.toNat then
    '\\' :: 'u' :: [hexChar (c.toNat / 4096 % 16), hexChar (c.toNat / 256 % 16),
      hexChar (c.toNat / 16 % 16), hexChar (c.toNat % 16)]
  else [c]

/-- Rendered JSON string literal. -/
def renderStr (s : String) : List Char := '"' :: s.data.flatMap escChar ++ ['"']

mutual
/-- `json.dumps` with the default separators `", "` and `": "`. -/
def renderJ : JVal → List Char
  | .jstr s => renderStr s
  | .jnum n => intDec n
  | .jbool b => if b then "true".data else "false".data
  | .jnull => "null".data
  | .jarr xs => '[' :: renderArr true xs ++ [']']
  | .jobj ms => '\x7b' :: renderMs true ms ++ ['\x7d']

def renderArr : Bool → JArr → List Char
  | _, .nil => []
  | first, .cons v tl =>
      (if first then [] else [',', ' ']) ++ renderJ v ++ renderArr false tl

def renderMs : Bool → JMembers → List Char
  | _, .nil => []
  | first, .cons k v tl =>
      (if first then [] else [',', ' ']) ++ renderStr k ++ ':' :: ' ' :: renderJ v ++
        renderMs false tl
end

/-- `json.dumps(v)`. -/
def dumps (v : JVal) : String := String.mk (renderJ v)

/-- Python string comparison (lexicographic by code point). -/
def strLtL : List Char → List Char → Bool
  | [], [] => false
  | [], _ :: _ => true
  | _ :: _, [] => false
  | a :: as, b :: bs =>
      if a.toNat < b.toNat then true
      else if b.toNat < a.toNat then false
      else strLtL as bs

/-- Stable insertion into a key-sorted member list (an element moves before
the first strictly greater key). -/
def mInsert (k : String) (v : JVal) : JMembers → JMembers
  | .nil => .cons k v .nil
  | .cons k' v' tl =>
      if strLtL k'.data k.data then .cons k' v' (mInsert k v tl)
      else .cons k v (.cons k' v' tl)

/-- Stable insertion sort of a member list by key (Python `sorted`). -/
def sortMs : JMembers → JMembers
  | .nil => .nil
  | .cons k v tl => mInsert k v (sortMs tl)

mutual
/-- Recursively sort every object's members by key (`sort_keys=True`). -/
def sortJ : JVal → JVal
  | .jstr s => .jstr s
  | .jnum n => .jnum n
  | .jbool b => .jbool b
  | .jnull => .jnull
  | .jarr xs => .jarr (sortArrVals xs)
  | .jobj ms => .jobj (sortMs (sortMsVals ms))

def sortArrVals : JArr → JArr
  | .nil => .nil
  | .cons v tl => .cons (sortJ v) (sortArrVals tl)

def sortMsVals : JMembers → JMembers
  | .nil => .nil
  | .cons k v tl => .cons k (sortJ v) (sortMsVals tl)
end

/-- `json.dumps(v, sort_keys=True)`. -/
def dumpsSorted (v : JVal) : String := String.mk (renderJ (sortJ v))

/-- JSON whitespace (`json.decoder.WHITESPACE`). -/
def jsWs (c : Char) : Bool := c == ' ' || c == '\t' || c == '\n' || c == '\r'

/-- Skip JSON whitespace. -/
def jsSkipWs (l : List Char) : List Char := l.dropWhile jsWs

/-- Hex digit value of a character. -/
def hexVal (c : Char) : Option Nat :=
  if '0' ≤ c ∧ c ≤ '9' then some (c.toNat - 48)
  else if 'a' ≤ c ∧ c ≤ 'f' then some (c.toNat - 87)
  else if 'A' ≤ c ∧ c ≤ 'F' then some (c.toNat - 55)
  else none

/-- Parse a JSON string body after the opening quote: content and remainder
after the closing quote.  Raw control characters are rejected (`strict`
decoding). -/
def pStrGo : List Char → Option (List Char × List Char)
  | [] => none
  | c :: cs =>
      if c == '"' then some ([], cs)
      else if c == '\\' then
        match cs with
        | [] => none
        | e :: cs' =>
            if e == 'u' then
              match cs' with
              | h1 :: h2 :: h3 :: h4 :: cs'' =>
                  match hexVal h1, hexVal h2, hexVal h3, hexVal h4 with
                  | some a, some b, some c2, some d =>
                      (pStrGo cs'').map
                        (fun p => (Char.ofNat (((a * 16 + b) * 16 + c2) * 16 + d) :: p.1, p.2))
                  | _, _, _, _ => none
              | _ => none
            else
              let dec : Option Char :=
                if e == '"' then some '"'
                else if e == '\\' then some '\\'
                else if e == '/' then some '/'
                else if e == 'n' then some '\n'
                else if e == 't' then some '\t'
                else if e == 'r' then some '\r'
                else if e == 'b' then some '\x08'
                else if e == 'f' then some '\x0c'
                else none
              match dec with
              | some d => (pStrGo cs').map (fun p => (d :: p.1, p.2))
              | none => none
      else if c.toNat < 32 then none
      else (pStrGo cs).map (fun p => (c :: p.1, p.2))

/-- Digit run to a natural number. -/
def digitsToNat (l : List Char) : Nat := l.foldl (fun acc c => acc * 10 + (c.toNat - 48)) 0

/-- Digit-run part of `pNum`: the sign has been consumed. -/
def pNumCore (neg : Bool) (l' : List Char) : Option (JVal × List Char) :=
  let ds := l'.takeWhile Char.isDigit
  let rest := l'.dropWhile Char.isDigit
  if ds.isEmpty then none
  else
    match rest with
    | c :: _ =>
        if c == '.' || c == 'e' || c == 'E' then none
        else some (.jnum (if neg then -(digitsToNat ds : Int) else (digitsToNat ds : Int)), rest)
    | [] => some (.jnum (if neg then -(digitsToNat ds : Int) else (digitsToNat ds : Int)), [])

/-- Parse an integer JSON number (a following `.`, `e` or `E` — a float —
is rejected; see the section comment). -/
def pNum (l : List Char) : Option (JVal × List Char) :=
  match l with
  | [] => none
  | c :: r => if c == '-' then pNumCore true r else pNumCore false (c :: r)

mutual
/-- Parse one JSON value (the fuel decreases on every mutual call). -/
def pVal : Nat → List Char → Option (JVal × List Char)
  | 0, _ => none
  | fuel + 1, cs =>
      match cs with
      | [] => none
      | c :: cs' =>
          if c == '\x7b' then
            match jsSkipWs cs' with
            | [] => none
            | c1 :: r =>
                if c1 == '\x7d' then some (.jobj .nil, r)
                else (pMembers fuel (c1 :: r)).map (fun p => (.jobj p.1, p.2))
          else if c == '[' then
            match jsSkipWs cs' with
            | [] => none
            | c1 :: r =>
                if c1 == ']' then some (.jarr .nil, r)
                else (pElems fuel (c1 :: r)).map (fun p => (.jarr p.1, p.2))
          else if c == '"' then
            (pStrGo cs').map (fun p => (.jstr (String.mk p.1), p.2))
          else if c == 't' then
            if startsWithL "rue".data cs' then some (.jbool true, cs'.drop 3) else none
          else if c == 'f' then
            if startsWithL "alse".data cs' then some (.jbool false, cs'.drop 4) else none
          else if c == 'n' then
            if startsWithL "ull".data cs' then some (.jnull, cs'.drop 3) else none
          else if c == '-' || c.isDigit then pNum cs
          else none

/-- Parse the members of a non-empty object, positioned at a key's opening
quote; consumes the closing brace. -/
def pMembers : Nat → List Char → Option (JMembers × List Char)
  | 0, _ => none
  | fuel + 1, cs =>
      match cs with
      | [] => none
      | c :: cs' =>
          if c == '"' then
            match pStrGo cs' with
            | none => none
            | some (k, r1) =>
                match jsSkipWs r1 with
                | [] => none
                | c2 :: r3 =>
                    if c2 == ':' then
                      match pVal fuel (jsSkipWs r3) with
                      | none => none
                      | some (v, r5) =>
                          match jsSkipWs r5 with
                          | [] => none
                          | c3 :: r7 =>
                              if c3 == ',' then
                                (pMembers fuel (jsSkipWs r7)).map
                                  (fun p => (.cons (String.mk k) v p.1, p.2))
                              else if c3 == '\x7d' then
                                some (.cons (String.mk k) v .nil, r7)
                              else none
                    else none
          else none

/-- Parse the elements of a non-empty array; consumes the closing bracket. -/
def pElems : Nat → List Char → Option (JArr × List Char)
  | 0, _ => none
  | fuel + 1, cs =>
      match pVal fuel cs with
      | none => none
      | some (v, r) =>
          match jsSkipWs r with
          | [] => none
          | c :: r2 =>
              if c == ',' then (pElems fuel (jsSkipWs r2)).map (fun p => (.cons v p.1, p.2))
              else if c == ']' then some (.cons v .nil, r2)
              else none
end

/-- `json.loads` on a character list: a single value surrounded by optional
whitespace. -/
def jparseL (l : List Char) : Option JVal :=
  match pVal (l.length + 1) (jsSkipWs l) with
  | some (v, rest) => if (jsSkipWs rest).isEmpty then some v else none
  | none => none

example : jparseL "\x7b\"a\": [1, -2], \"b\": true\x7d".data =
    some (.jobj (.cons "a" (.jarr (.cons (.jnum 1) (.cons (.jnum (-2)) .nil)))
      (.cons "b" (.jbool true) .nil))) := by rfl

example : dumps (.jobj (.cons "a" (.jarr (.cons (.jnum 1) (.cons (.jnum (-2)) .nil)))
      (.cons "b" (.jbool true) .nil))) = "\x7b\"a\": [1, -2], \"b\": true\x7d" := by rfl

example : dumpsSorted (.jobj (.cons "b" (.jnum 1) (.cons "a" (.jnum 2) .nil)))
    = "\x7b\"a\": 2, \"b\": 1\x7d" := by rfl

example : jparseL "\x7b\"a\": 1.5\x7d".data = none := by rfl

/-! ## Licensing: generation and validation
(license_manager.py, license_validator.py)

`datetime` values are modelled as seconds since an arbitrary epoch;
`isoformat`/`fromisoformat` become an injective decimal rendering and its
parser (the code only relies on the round trip and on the order), and
`timedelta(days=d)` is `d * 86400` seconds; `(expiry - now).days` floors
toward minus infinity (`Int.fdiv`).  Both validators are embedded in full;
they differ only in the machine-id check, which license_validator.py lines
58-62 carry as comments ("disabled for floating licenses") while
license_manager.py lines 133-136 execute it. -/

/-- Dict lookup on parsed members (Python keeps the last duplicate key). -/
def mLookupLast : JMembers → String → Option JVal
  | .nil, _ => none
  | .cons k v tl, key =>
      match mLookupLast tl key with
      | some r => some r
      | none => if k == key then some v else none

/-- `payload[key]` / `payload.get(key)` on a parsed JSON value. -/
def jGet : JVal → String → Option JVal
  | .jobj ms, key => mLookupLast ms key
  | _, _ => none

/-- Python truthiness of a JSON value. -/
def jTruthy : JVal → Bool
  | .jstr s => !(s == "")
  | .jnum n => !(n == 0)
  | .jbool b => b
  | .jnull => false
  | .jarr .nil => false
  | .jarr (.cons _ _) => true
  | .jobj .nil => false
  | .jobj (.cons _ _ _) => true

/-- `datetime.isoformat` under the timestamp model: injective decimal
rendering of the epoch seconds. -/
def isoformat (t : Int) : String := String.mk (intDec t)

/-- Digit run to `some` natural number, `none` on empty or non-digit input. -/
def decNat (l : List Char) : Option Nat :=
  if l.isEmpty then none
  else if l.all Char.isDigit then some (digitsToNat l) else none

/-- `datetime.fromisoformat` under the timestamp model. -/
def fromisoformat (s : String) : Option Int :=
  match s.data with
  | [] => none
  | c :: rest =>
      if c == '-' then (decNat rest).map (fun n => -(n : Int))
      else (decNat (c :: rest)).map (fun n => (n : Int))

/-- `timedelta.days`: floor division of the second difference by 86400. -/
def timedeltaDays (seconds : Int) : Int := Int.fdiv seconds 86400

/-- The shared secret embedded in both modules. -/
def license_secret : String := "JTV-2025-SECRET-KEY-DO-NOT-SHARE"

/-- `get_license_features` (license_manager.py lines 71-105):
`features.get(license_type, features["trial"])`. -/
def get_license_features (license_type : String) : JVal :=
  let trial : JVal := .jobj (.cons "create_tickets" (.jbool true)
    (.cons "comment_tickets" (.jbool true) (.cons "assign_tickets" (.jbool true)
    (.cons "search_tickets" (.jbool true) (.cons "export_data" (.jbool false)
    (.cons "api_access" (.jbool false) (.cons "priority_support" (.jbool false)
    (.cons "max_users" (.jnum 1) .nil))))))))
  if license_type == "trial" then trial
  else if license_type == "standard" then
    .jobj (.cons "create_tickets" (.jbool true)
      (.cons "comment_tickets" (.jbool true) (.cons "assign_tickets" (.jbool true)
      (.cons "search_tickets" (.jbool true) (.cons "export_data" (.jbool true)
      (.cons "api_access" (.jbool true) (.cons "priority_support" (.jbool false)
      (.cons "max_users" (.jnum 5) .nil))))))))
  else if license_type == "premium" then
    .jobj (.cons "create_tickets" (.jbool true)
      (.cons "comment_tickets" (.jbool true) (.cons "assign_tickets" (.jbool true)
      (.cons "search_tickets" (.jbool true) (.cons "export_data" (.jbool true)
      (.cons "api_access" (.jbool true) (.cons "priority_support" (.jbool true)
      (.cons "max_users" (.jnum (-1)) .nil))))))))
  else trial

/-- The `license_data` dict (license_manager.py lines 42-49), in insertion
order. -/
def genData (user_email license_type expires machine_id : String) : JVal :=
  .jobj (.cons "email" (.jstr user_email)
    (.cons "type" (.jstr license_type)
    (.cons "expires" (.jstr expires)
    (.cons "machine_id" (.jstr machine_id)
    (.cons "version" (.jstr "1.0")
    (.cons "features" (get_license_features license_type) .nil))))))

/-- `LicenseManager.generate_license_key` (license_manager.py lines 36-69).
`now` is `datetime.now()` and `machine_id` the value of `get_machine_id()`
(an environment input in this embedding). -/
def generate_license_key (now : Int) (machine_id : String)
    (user_email license_type : String) (days_valid : Int) : String :=
  let expiry := now + days_valid * 86400
  let license_data := genData user_email license_type (isoformat expiry) machine_id
  let data_string := dumpsSorted license_data
  let signature := hmacHexDigest license_secret data_string
  let license_payload : JVal := .jobj (.cons "data" license_data
    (.cons "signature" (.jstr signature) .nil))
  String.mk (b64encodeBytes (strToBytes (dumps license_payload)))

/-- Decoded bytes back to text (`bytes.decode()`); the licensing payloads are
pure ASCII, so only the ASCII range is modelled (a byte over 127 fails). -/
def bytesToAscii (bs : List Nat) : Option (List Char) :=
  if bs.all (fun b => b < 128) then some (bs.map Char.ofNat) else none

/-- Result of `validate_license_key`: the `{"valid": True, "data": ...,
"days_remaining": ...}` and `{"valid": False, "error": ...}` dicts. -/
inductive VResult where
  | valid (data : JVal) (days_remaining : Int)
  | invalid (error : String)

/-- The try-block prefix shared by both validators: base64 decode, byte
decode, JSON parse.  Each failure is a distinct caught exception whose text
feeds `f"License validation error: {str(e)}"`; the exception texts are
modelled by short tags. -/
def decode_payload (license_key : String) : Except String JVal :=
  match b64decodeStr license_key with
  | none => .error "invalid base64"
  | some bytes =>
      match bytesToAscii bytes with
      | none => .error "undecodable bytes"
      | some chars =>
          match jparseL chars with
          | none => .error "invalid JSON"
          | some payload => .ok payload

namespace LicenseValidator

/-- `LicenseValidator.validate_license_key` (license_validator.py lines
32-71).  The machine-id check of lines 58-62 is commented out in the source
and therefore absent here. -/
def validate_license_key (now : Int) (license_key : String) : VResult :=
  match decode_payload license_key with
  | .error e => .invalid ("License validation error: " ++ e)
  | .ok payload =>
      match jGet payload "data", jGet payload "signature" with
      | some data, some sigv =>
          match sigv with
          | .jstr signature =>
              let data_string := dumpsSorted data
              let expected_signature := hmacHexDigest license_secret data_string
              if signature == expected_signature then
                match jGet data "expires" with
                | some (.jstr e) =>
                    match fromisoformat e with
                    | some expiry_date =>
                        if now > expiry_date then .invalid "License expired"
                        else .valid data (timedeltaDays (expiry_date - now))
                    | none => .invalid "License validation error: invalid expires"
                | _ => .invalid "License validation error: missing expires"
              else .invalid "Invalid license signature"
          | _ => .invalid "License validation error: signature not a string"
      | _, _ => .invalid "License validation error: missing field"

end LicenseValidator

namespace LicenseManager

/-- `LicenseManager.validate_license_key` (license_manager.py lines 107-145).
Identical to the validator module except for lines 133-136: when the license
carries a truthy `machine_id` different from the current machine's id, the
key is rejected.  `current_machine_id` is the value of `get_machine_id()` on
the validating machine. -/
def validate_license_key (now : Int) (current_machine_id : String)
    (license_key : String) : VResult :=
  match decode_payload license_key with
  | .error e => .invalid ("License validation error: " ++ e)
  | .ok payload =>
      match jGet payload "data", jGet payload "signature" with
      | some data, some sigv =>
          match sigv with
          | .jstr signature =>
              let data_string := dumpsSorted data
              let expected_signature := hmacHexDigest license_secret data_string
              if signature == expected_signature then
                match jGet data "expires" with
                | some (.jstr e) =>
                    match fromisoformat e with
                    | some expiry_date =>
                        if now > expiry_date then .invalid "License expired"
                        else
                          let machine_mismatch :=
                            match jGet data "machine_id" with
                            | none => false
                            | some mv =>
                                if jTruthy mv then
                                  match mv with
                                  | .jstr m => !(m == current_machine_id)
                                  | _ => true
                                else false
                          if machine_mismatch then
                            .invalid "License not valid for this machine"
                          else .valid data (timedeltaDays (expiry_date - now))
                    | none => .invalid "License validation error: invalid expires"
                | _ => .invalid "License validation error: missing expires"
              else .invalid "Invalid license signature"
          | _ => .invalid "License validation error: signature not a string"
      | _, _ => .invalid "License validation error: missing field"

end LicenseManager

/-! ## Round-trip lemmas: decimals, whitespace, strings -/

theorem takeWhile_append_all {α : Type} (p : α → Bool) (l1 l2 : List α)
    (h : ∀ a ∈ l1, p a = true) : (l1 ++ l2).takeWhile p = l1 ++ l2.takeWhile p := by
  induction l1 with
  | nil => simp
  | cons a l ih =>
      have ha : p a = true := h a (by simp)
      simp only [List.cons_append, List.takeWhile_cons, ha, if_true]
      rw [ih (fun b hb => h b (by simp [hb]))]

theorem dropWhile_append_all {α : Type} (p : α → Bool) (l1 l2 : List α)
    (h : ∀ a ∈ l1, p a = true) : (l1 ++ l2).dropWhile p = l2.dropWhile p := by
  induction l1 with
  | nil => simp
  | cons a l ih =>
      have ha : p a = true := h a (by simp)
      simp only [List.cons_append, List.dropWhile_cons, ha, if_true]
      exact ih (fun b hb => h b (by simp [hb]))

theorem digitChar_isDigit : ∀ k, k < 10 → (digitChar k).isDigit = true := by decide

theorem digitChar_toNat : ∀ k, k < 10 → (digitChar k).toNat = 48 + k := by decide

theorem natDecGo_all_digit : ∀ fuel n, ∀ c ∈ natDecGo fuel n, c.isDigit = true := by
  intro fuel
  induction fuel with
  | zero => intro n c hc; simp [natDecGo] at hc
  | succ f ih =>
      intro n c hc
      by_cases h : n < 10
      · simp only [natDecGo, h, if_true, List.mem_singleton] at hc
        exact hc ▸ digitChar_isDigit n h
      · simp only [natDecGo, h, if_false, List.mem_append, List.mem_singleton] at hc
        rcases hc with hc | hc
        · exact ih _ c hc
        · exact hc ▸ digitChar_isDigit _ (Nat.mod_lt n (by norm_num))

theorem natDecGo_ne_nil : ∀ fuel n, 1 ≤ fuel → natDecGo fuel n ≠ [] := by
  intro fuel n h
  cases fuel with
  | zero => omega
  | succ f =>
      by_cases h10 : n < 10
      · simp [natDecGo, h10]
      · simp only [natDecGo, h10, if_false]
        intro hcontra
        exact absurd (List.append_eq_nil.mp hcontra).2 (by simp)

/-- Value of a digit fold across an append. -/
theorem digitsToNat_append (l1 l2 : List Char) :
    digitsToNat (l1 ++ l2) =
      (l2.foldl (fun acc c => acc * 10 + (c.toNat - 48)) (digitsToNat l1)) := by
  simp [digitsToNat, List.foldl_append]

theorem digitsToNat_natDecGo : ∀ fuel n, n < 10 ^ fuel →
    ∀ acc, (natDecGo fuel n).foldl (fun acc c => acc * 10 + (c.toNat - 48)) acc
      = acc * 10 ^ (natDecGo fuel n).length + n := by
  intro fuel
  induction fuel with
  | zero =>
      intro n hn acc
      interval_cases n
      simp [natDecGo]
  | succ f ih =>
      intro n hn acc
      by_cases h : n < 10
      · simp only [natDecGo, h, if_true, List.foldl_cons, List.foldl_nil, List.length_singleton]
        rw [digitChar_toNat n h]
        ring_nf
        omega
      · simp only [natDecGo, h, if_false, List.foldl_append, List.length_append,
          List.foldl_cons, List.foldl_nil, List.length_singleton]
        have hdiv : n / 10 < 10 ^ f := Nat.div_lt_of_lt_mul (by rw [pow_succ] at hn; omega)
        rw [ih (n / 10) hdiv acc, digitChar_toNat _ (Nat.mod_lt n (by norm_num))]
        have hsub : 48 + n % 10 - 48 = n % 10 := by omega
        have hmod : 10 * (n / 10) + n % 10 = n := Nat.div_add_mod n 10
        rw [hsub]
        calc (acc * 10 ^ (natDecGo f (n / 10)).length + n / 10) * 10 + n % 10
            = acc * 10 ^ ((natDecGo f (n / 10)).length + 1) + (10 * (n / 10) + n % 10) := by ring
          _ = acc * 10 ^ ((natDecGo f (n / 10)).length + 1) + n := by rw [hmod]

theorem natDec_all_digit (n : Nat) : ∀ c ∈ natDec n, c.isDigit = true :=
  natDecGo_all_digit (n + 1) n

theorem natDec_ne_nil (n : Nat) : natDec n ≠ [] :=
  natDecGo_ne_nil (n + 1) n (by omega)

theorem digitsToNat_natDec (n : Nat) : digitsToNat (natDec n) = n := by
  have hlt : n < 10 ^ (n + 1) :=
    lt_of_lt_of_le (Nat.lt_pow_self (by norm_num) n)
      (Nat.pow_le_pow_right (by norm_num) (by omega))
  have h := digitsToNat_natDecGo (n + 1) n hlt 0
  simpa [digitsToNat, natDec] using h

theorem decNat_natDec (n : Nat) : decNat (natDec n) = some n := by
  have hne : natDec n ≠ [] := natDec_ne_nil n
  have hall : (natDec n).all Char.isDigit = true := by
    rw [List.all_eq_true]
    exact natDec_all_digit n
  simp [decNat, hall, digitsToNat_natDec, List.isEmpty_iff, hne]

theorem fromisoformat_isoformat (t : Int) : fromisoformat (isoformat t) = some t := by
  by_cases h : t < 0
  · simp only [isoformat, intDec, h, if_true, fromisoformat]
    rw [decNat_natDec]
    simp
    omega
  · simp only [isoformat, intDec, h, if_false, fromisoformat]
    cases hd : natDec t.toNat with
    | nil => exact absurd hd (natDec_ne_nil _)
    | cons c cs =>
        have hc : c.isDigit = true := natDec_all_digit _ c (by rw [hd]; simp)
        have hcm : (c == '-') = false := by
          rw [beq_eq_false_iff_ne]
          intro hcontra
          rw [hcontra] at hc
          simp [Char.isDigit] at hc
        simp only [hcm, Bool.false_eq_true, if_false, ← hd, decNat_natDec]
        simp
        omega

theorem jsSkipWs_cons_not_ws (c : Char) (l : List Char) (h : jsWs c = false) :
    jsSkipWs (c :: l) = c :: l := by
  simp [jsSkipWs, List.dropWhile_cons, h]

theorem jsSkipWs_space (l : List Char) : jsSkipWs (' ' :: l) = jsSkipWs l := rfl

/-- Characters needing no JSON escaping: printable ASCII except the quote and
the backslash. -/
def safeChar (c : Char) : Bool :=
  (32 ≤ c.toNat && c.toNat ≤ 126) && !(c == '"') && !(c == '\\')

theorem escChar_safe (c : Char) (h : safeChar c = true) : escChar c = [c] := by
  simp only [safeChar, Bool.and_eq_true, Bool.not_eq_true', decide_eq_true_eq] at h
  obtain ⟨⟨⟨h32, h126⟩, hq⟩, hb⟩ := h
  have hn : (c == '\n') = false := by
    rw [beq_eq_false_iff_ne]; intro hcontra; rw [hcontra] at h32; simp at h32
  have ht : (c == '\t') = false := by
    rw [beq_eq_false_iff_ne]; intro hcontra; rw [hcontra] at h32; simp at h32
  have hr : (c == '\r') = false := by
    rw [beq_eq_false_iff_ne]; intro hcontra; rw [hcontra] at h32; simp at h32
  have h8 : (c.toNat == 8) = false := by
    rw [beq_eq_false_iff_ne]; omega
  have h12 : (c.toNat == 12) = false := by
    rw [beq_eq_false_iff_ne]; omega
  have hrange : (c.toNat < 32 || 127 ≤ c.toNat) = false := by
    rw [Bool.or_eq_false_iff]
    constructor <;> simp <;> omega
  simp [escChar, hq, hb, hn, ht, hr, h8, h12, hrange]

theorem flatMap_escChar_safe (l : List Char) (h : l.all safeChar = true) :
    l.flatMap escChar = l := by
  induction l with
  | nil => simp
  | cons c cs ih =>
      rw [List.all_cons, Bool.and_eq_true] at h
      simp only [List.flatMap_cons, escChar_safe c h.1, ih h.2]
      simp

theorem renderStr_safe (s : String) (h : s.data.all safeChar = true) :
    renderStr s = '"' :: (s.data ++ ['"']) := by
  simp [renderStr, flatMap_escChar_safe s.data h]

theorem pStrGo_render (l : List Char) (rest : List Char) (h : l.all safeChar = true) :
    pStrGo (l ++ '"' :: rest) = some (l, rest) := by
  induction l with
  | nil =>
      simp only [List.nil_append]
      rw [pStrGo.eq_def]
      simp
  | cons c cs ih =>
      rw [List.all_cons, Bool.and_eq_true] at h
      obtain ⟨hc, hcs⟩ := h
      simp only [safeChar, Bool.and_eq_true, Bool.not_eq_true', decide_eq_true_eq] at hc
      obtain ⟨⟨⟨h32, _⟩, hq⟩, hb⟩ := hc
      have h32' : ¬(c.toNat < 32) := by omega
      rw [List.cons_append, pStrGo.eq_def]
      simp only [hq, hb, Bool.false_eq_true, if_false, h32', ih hcs, Option.map_some']

/-! ## Round-trip lemmas: safety, fuel, numbers -/

mutual
/-- Every string in the value needs no JSON escaping. -/
def jsafeB : JVal → Bool
  | .jstr s => s.data.all safeChar
  | .jnum _ => true
  | .jbool _ => true
  | .jnull => true
  | .jarr xs => asafeB xs
  | .jobj ms => msafeB ms

def asafeB : JArr → Bool
  | .nil => true
  | .cons v tl => jsafeB v && asafeB tl

def msafeB : JMembers → Bool
  | .nil => true
  | .cons k v tl => k.data.all safeChar && jsafeB v && msafeB tl
end

mutual
/-- Fuel needed by `pVal` to parse the rendering of a value. -/
def jfuel : JVal → Nat
  | .jstr _ => 1
  | .jnum _ => 1
  | .jbool _ => 1
  | .jnull => 1
  | .jarr xs => 1 + afuel xs
  | .jobj ms => 1 + mfuel ms

def afuel : JArr → Nat
  | .nil => 0
  | .cons v tl => 1 + jfuel v + afuel tl

def mfuel : JMembers → Nat
  | .nil => 0
  | .cons _ v tl => 1 + jfuel v + mfuel tl
end

theorem jfuel_pos (v : JVal) : 1 ≤ jfuel v := by
  cases v <;> simp [jfuel]

theorem jsWs_false_of_digit (c : Char) (h : c.isDigit = true) : jsWs c = false := by
  simp only [jsWs, Bool.or_eq_false_iff]
  refine ⟨⟨⟨?_, ?_⟩, ?_⟩, ?_⟩ <;>
    (rw [beq_eq_false_iff_ne]; intro hc; subst hc; simp [Char.isDigit] at h)

/-- The first rendered character of any value is not whitespace and is not a
closing bracket or brace. -/
theorem renderJ_head (v : JVal) : ∃ c cs, renderJ v = c :: cs ∧ jsWs c = false ∧
    (c == ']') = false ∧ (c == '\x7d') = false := by
  cases v with
  | jstr s => exact ⟨'"', _, rfl, by decide, by decide, by decide⟩
  | jnum n =>
      by_cases h : n < 0
      · have hr : renderJ (.jnum n) = '-' :: natDec (-n).toNat := by
          simp [renderJ, intDec, h]
        exact ⟨'-', _, hr, by decide, by decide, by decide⟩
      · cases hd : natDec n.toNat with
        | nil => exact absurd hd (natDec_ne_nil _)
        | cons c cs =>
            have hc : c.isDigit = true := natDec_all_digit _ c (by rw [hd]; simp)
            refine ⟨c, cs, ?_, jsWs_false_of_digit c hc, ?_, ?_⟩
            · simp [renderJ, intDec, h, hd]
            · rw [beq_eq_false_iff_ne]
              intro hcontra
              subst hcontra
              exact absurd hc (by decide)
            · rw [beq_eq_false_iff_ne]
              intro hcontra
              subst hcontra
              exact absurd hc (by decide)
  | jbool b => cases b <;> exact ⟨_, _, rfl, by decide, by decide, by decide⟩
  | jnull => exact ⟨'n', _, rfl, by decide, by decide, by decide⟩
  | jarr xs => exact ⟨'[', _, rfl, by decide, by decide, by decide⟩
  | jobj ms => exact ⟨'\x7b', _, rfl, by decide, by decide, by decide⟩

theorem jsSkipWs_renderJ (v : JVal) (rest : List Char) :
    jsSkipWs (renderJ v ++ rest) = renderJ v ++ rest := by
  obtain ⟨c, cs, hv, hws, _, _⟩ := renderJ_head v
  rw [hv, List.cons_append, jsSkipWs_cons_not_ws _ _ hws]

/-- `true` when a number rendering may stop in front of this list. -/
def numBoundary (l : List Char) : Bool :=
  match l with
  | [] => true
  | c :: _ => !(c.isDigit || c == '.' || c == 'e' || c == 'E')

theorem takeWhile_digits_boundary (rest : List Char) (h : numBoundary rest = true) :
    rest.takeWhile Char.isDigit = [] := by
  cases rest with
  | nil => rfl
  | cons c cs =>
      simp only [numBoundary, Bool.not_eq_true', Bool.or_eq_false_iff] at h
      simp [List.takeWhile_cons, h.1.1.1]

theorem dropWhile_digits_boundary (rest : List Char) (h : numBoundary rest = true) :
    rest.dropWhile Char.isDigit = rest := by
  cases rest with
  | nil => rfl
  | cons c cs =>
      simp only [numBoundary, Bool.not_eq_true', Bool.or_eq_false_iff] at h
      simp [List.dropWhile_cons, h.1.1.1]

theorem pNumCore_render (m : Nat) (neg : Bool) (rest : List Char)
    (h : numBoundary rest = true) :
    pNumCore neg (natDec m ++ rest) =
      some (.jnum (if neg then -(m : Int) else (m : Int)), rest) := by
  have htake : (natDec m ++ rest).takeWhile Char.isDigit = natDec m := by
    rw [takeWhile_append_all Char.isDigit _ _ (natDec_all_digit m),
      takeWhile_digits_boundary rest h, List.append_nil]
  have hdrop : (natDec m ++ rest).dropWhile Char.isDigit = rest := by
    rw [dropWhile_append_all Char.isDigit _ _ (natDec_all_digit m),
      dropWhile_digits_boundary rest h]
  have hne : (natDec m).isEmpty = false := by
    rw [List.isEmpty_eq_false_iff_exists_mem]
    cases hd : natDec m with
    | nil => exact absurd hd (natDec_ne_nil m)
    | cons c cs => exact ⟨c, by simp⟩
  simp only [pNumCore, htake, hdrop, hne, Bool.false_eq_true, if_false, digitsToNat_natDec]
  cases rest with
  | nil => rfl
  | cons c cs =>
      simp only [numBoundary, Bool.not_eq_true', Bool.or_eq_false_iff] at h
      simp [h.1.1.2, h.1.2, h.2]

theorem pNum_render (n : Int) (rest : List Char) (h : numBoundary rest = true) :
    pNum (intDec n ++ rest) = some (.jnum n, rest) := by
  by_cases hneg : n < 0
  · simp only [intDec, hneg, if_true, List.cons_append, pNum]
    rw [if_pos (by rfl), pNumCore_render _ _ _ h]
    simp
    omega
  · simp only [intDec, hneg, if_false]
    cases hd : natDec n.toNat with
    | nil => exact absurd hd (natDec_ne_nil _)
    | cons c cs =>
        have hc : c.isDigit = true := natDec_all_digit _ c (by rw [hd]; simp)
        have hcm : (c == '-') = false := by
          rw [beq_eq_false_iff_ne]
          intro hcontra
          rw [hcontra] at hc
          simp [Char.isDigit] at hc
        rw [pNum.eq_def, List.cons_append]
        show (if (c == '-') = true then pNumCore true (cs ++ rest)
          else pNumCore false (c :: (cs ++ rest))) = some (JVal.jnum n, rest)
        rw [hcm]
        simp only [Bool.false_eq_true, if_false]
        rw [show c :: (cs ++ rest) = (c :: cs) ++ rest from rfl, ← hd,
          pNumCore_render _ _ _ h]
        simp
        omega

set_option maxHeartbeats 1000000

theorem beq_lit_false_of_digit (c x : Char) (h : c.isDigit = true)
    (hx : x.isDigit = false) : (c == x) = false := by
  rw [beq_eq_false_iff_ne]
  intro hc
  rw [hc] at h
  rw [h] at hx
  exact absurd hx (by simp)

theorem renderMs_false_cons (k : String) (v : JVal) (tl : JMembers) :
    renderMs false (.cons k v tl) = ',' :: ' ' :: renderMs true (.cons k v tl) := by
  rw [renderMs, renderMs]
  rfl

theorem renderArr_false_cons (v : JVal) (tl : JArr) :
    renderArr false (.cons v tl) = ',' :: ' ' :: renderArr true (.cons v tl) := by
  rw [renderArr, renderArr]
  rfl

theorem numBoundary_renderMs_tail (tl : JMembers) (rest : List Char) :
    numBoundary (renderMs false tl ++ '\x7d' :: rest) = true := by
  cases tl with
  | nil => rfl
  | cons k v tl' => rw [renderMs_false_cons]; rfl

theorem numBoundary_renderArr_tail (tl : JArr) (rest : List Char) :
    numBoundary (renderArr false tl ++ ']' :: rest) = true := by
  cases tl with
  | nil => rfl
  | cons v tl' => rw [renderArr_false_cons]; rfl

/-- A non-empty member rendering starts with the key's opening quote. -/
theorem renderMs_true_cons_shape (k : String) (v : JVal) (tl : JMembers) :
    renderMs true (.cons k v tl) = '"' :: (k.data.flatMap escChar ++
      ('"' :: ':' :: ' ' :: (renderJ v ++ renderMs false tl))) := by
  rw [renderMs, renderStr]
  simp

/-- `pVal` at positive fuel on a number head runs the number parser. -/
theorem pVal_succ_num (f : Nat) (c : Char) (cs' : List Char)
    (h : c = '-' ∨ c.isDigit = true) :
    pVal (f + 1) (c :: cs') = pNum (c :: cs') := by
  rcases h with h | h
  · subst h; rfl
  · have h1 := beq_lit_false_of_digit c '\x7b' h (by decide)
    have h2 := beq_lit_false_of_digit c '[' h (by decide)
    have h3 := beq_lit_false_of_digit c '"' h (by decide)
    have h4 := beq_lit_false_of_digit c 't' h (by decide)
    have h5 := beq_lit_false_of_digit c 'f' h (by decide)
    have h6 := beq_lit_false_of_digit c 'n' h (by decide)
    rw [pVal.eq_def]
    simp only [h1, h2, h3, h4, h5, h6, Bool.false_eq_true, if_false, h, Bool.or_true, if_true]

mutual
theorem pVal_render (v : JVal) :
    ∀ (fuel : Nat) (rest : List Char), jsafeB v = true → jfuel v ≤ fuel →
      numBoundary rest = true → pVal fuel (renderJ v ++ rest) = some (v, rest) := by
  intro fuel rest hs hf hb
  cases fuel with
  | zero => exact absurd hf (by have := jfuel_pos v; omega)
  | succ f =>
    cases v with
    | jstr s =>
        rw [show renderJ (.jstr s) = renderStr s from rfl,
          renderStr_safe s (by simpa [jsafeB] using hs),
          show ('"' :: (s.data ++ ['"'])) ++ rest = '"' :: (s.data ++ '"' :: rest) by simp]
        show (pStrGo (s.data ++ '"' :: rest)).map
          (fun p => (JVal.jstr (String.mk p.1), p.2)) = some (.jstr s, rest)
        rw [pStrGo_render s.data rest (by simpa [jsafeB] using hs)]
        rfl
    | jnum n =>
        by_cases h : n < 0
        · rw [show renderJ (.jnum n) ++ rest = '-' :: (natDec (-n).toNat ++ rest) by
            simp [renderJ, intDec, h]]
          rw [pVal_succ_num f _ _ (Or.inl rfl),
            show ('-' : Char) :: (natDec (-n).toNat ++ rest) = intDec n ++ rest by
              simp [intDec, h]]
          exact pNum_render n rest hb
        · cases hd : natDec n.toNat with
          | nil => exact absurd hd (natDec_ne_nil _)
          | cons c cs =>
              have hc : c.isDigit = true := natDec_all_digit _ c (by rw [hd]; simp)
              rw [show renderJ (.jnum n) ++ rest = c :: (cs ++ rest) by
                simp [renderJ, intDec, h, hd]]
              rw [pVal_succ_num f _ _ (Or.inr hc),
                show c :: (cs ++ rest) = intDec n ++ rest by simp [intDec, h, hd]]
              exact pNum_render n rest hb
    | jbool b => cases b <;> rfl
    | jnull => rfl
    | jarr xs =>
        cases xs with
        | nil => rfl
        | cons v0 tl =>
            have hstream : renderJ (.jarr (.cons v0 tl)) ++ rest =
                '[' :: (renderArr true (.cons v0 tl) ++ ']' :: rest) := by
              simp [renderJ]
            rw [hstream]
            have hred : pVal (f + 1) ('[' :: (renderArr true (.cons v0 tl) ++ ']' :: rest)) =
                (match jsSkipWs (renderArr true (.cons v0 tl) ++ ']' :: rest) with
                 | [] => none
                 | c1 :: r =>
                     if c1 == ']' then some (.jarr .nil, r)
                     else (pElems f (c1 :: r)).map (fun p => (.jarr p.1, p.2))) := rfl
            have hsh : renderArr true (.cons v0 tl) ++ ']' :: rest =
                renderJ v0 ++ (renderArr false tl ++ ']' :: rest) := by
              rw [renderArr]
              simp
            have hskip : jsSkipWs (renderArr true (.cons v0 tl) ++ ']' :: rest) =
                renderArr true (.cons v0 tl) ++ ']' :: rest := by
              rw [hsh]
              exact jsSkipWs_renderJ v0 _
            obtain ⟨c, cs, hv, hws, hrb, hrc⟩ := renderJ_head v0
            have hpe := pElems_render (.cons v0 tl) f rest (by simpa [jsafeB] using hs)
              (by simp only [jfuel] at hf; omega) (by intro hcontra; cases hcontra)
            rw [hred, hskip, hsh, hv, List.cons_append]
            simp only [hrb, Bool.false_eq_true, if_false]
            rw [← List.cons_append, ← hv, ← hsh, hpe]
            rfl
    | jobj ms =>
        cases ms with
        | nil => rfl
        | cons k0 v0 tl =>
            have hstream : renderJ (.jobj (.cons k0 v0 tl)) ++ rest =
                '\x7b' :: (renderMs true (.cons k0 v0 tl) ++ '\x7d' :: rest) := by
              simp [renderJ]
            rw [hstream]
            have hred : pVal (f + 1)
                ('\x7b' :: (renderMs true (.cons k0 v0 tl) ++ '\x7d' :: rest)) =
                (match jsSkipWs (renderMs true (.cons k0 v0 tl) ++ '\x7d' :: rest) with
                 | [] => none
                 | c1 :: r =>
                     if c1 == '\x7d' then some (.jobj .nil, r)
                     else (pMembers f (c1 :: r)).map (fun p => (.jobj p.1, p.2))) := rfl
            have hsh : renderMs true (.cons k0 v0 tl) ++ '\x7d' :: rest =
                '"' :: (k0.data.flatMap escChar ++ ('"' :: ':' :: ' ' ::
                  (renderJ v0 ++ (renderMs false tl ++ '\x7d' :: rest)))) := by
              rw [renderMs_true_cons_shape]
              simp
            have hpm := pMembers_render (.cons k0 v0 tl) f rest (by simpa [jsafeB] using hs)
              (by simp only [jfuel] at hf; omega) (by intro hcontra; cases hcontra)
            rw [hred, hsh, jsSkipWs_cons_not_ws _ _ (by decide)]
            simp only [show (('"' : Char) == '\x7d') = false from by decide,
              Bool.false_eq_true, if_false]
            rw [← hsh, hpm]
            rfl

theorem pMembers_render (ms : JMembers) :
    ∀ (fuel : Nat) (rest : List Char), msafeB ms = true → mfuel ms ≤ fuel →
      ms ≠ .nil → pMembers fuel (renderMs true ms ++ '\x7d' :: rest) = some (ms, rest) := by
  intro fuel rest hs hf hne
  cases ms with
  | nil => exact absurd rfl hne
  | cons k v tl =>
    cases fuel with
    | zero =>
        refine absurd hf ?_
        simp only [mfuel, Nat.le_zero]
        omega
    | succ f =>
      have htmp := hs
      simp only [msafeB, Bool.and_eq_true] at htmp
      obtain ⟨⟨hkf, hvf⟩, htlf⟩ := htmp
      have hkf' : k.data.all safeChar = true := hkf
      have hsh : renderMs true (.cons k v tl) ++ '\x7d' :: rest =
          '"' :: (k.data ++ ('"' :: ':' :: ' ' ::
            (renderJ v ++ (renderMs false tl ++ '\x7d' :: rest)))) := by
        rw [renderMs_true_cons_shape, flatMap_escChar_safe k.data hkf']
        simp
      rw [hsh]
      have hred : pMembers (f + 1) ('"' :: (k.data ++ ('"' :: ':' :: ' ' ::
            (renderJ v ++ (renderMs false tl ++ '\x7d' :: rest))))) =
          (match pStrGo (k.data ++ ('"' :: ':' :: ' ' ::
              (renderJ v ++ (renderMs false tl ++ '\x7d' :: rest)))) with
           | none => none
           | some (k', r1) =>
               match jsSkipWs r1 with
               | [] => none
               | c2 :: r3 =>
                   if c2 == ':' then
                     match pVal f (jsSkipWs r3) with
                     | none => none
                     | some (v', r5) =>
                         match jsSkipWs r5 with
                         | [] => none
                         | c3 :: r7 =>
                             if c3 == ',' then
                               (pMembers f (jsSkipWs r7)).map
                                 (fun p => (.cons (String.mk k') v' p.1, p.2))
                             else if c3 == '\x7d' then
                               some (.cons (String.mk k') v' .nil, r7)
                             else none
                   else none) := rfl
      have hstr := pStrGo_render k.data (':' :: ' ' ::
        (renderJ v ++ (renderMs false tl ++ '\x7d' :: rest))) hkf'
      have hcolon : jsSkipWs (':' :: ' ' ::
          (renderJ v ++ (renderMs false tl ++ '\x7d' :: rest))) =
          ':' :: ' ' :: (renderJ v ++ (renderMs false tl ++ '\x7d' :: rest)) :=
        jsSkipWs_cons_not_ws _ _ (by decide)
      have hspace : jsSkipWs (' ' :: (renderJ v ++ (renderMs false tl ++ '\x7d' :: rest))) =
          renderJ v ++ (renderMs false tl ++ '\x7d' :: rest) := by
        rw [jsSkipWs_space, jsSkipWs_renderJ]
      have hval := pVal_render v f (renderMs false tl ++ '\x7d' :: rest) hvf
        (by simp only [mfuel] at hf; omega) (numBoundary_renderMs_tail tl rest)
      cases tl with
      | nil =>
          have htail : renderMs false JMembers.nil ++ '\x7d' :: rest = '\x7d' :: rest := by
            rw [renderMs]
            simp
          have hbrace : jsSkipWs ('\x7d' :: rest) = '\x7d' :: rest :=
            jsSkipWs_cons_not_ws _ _ (by decide)
          rw [hred, hstr]
          simp only [hcolon, show ((':' : Char) == ':') = true from by decide, if_true,
            hspace, hval]
          simp only [htail, hbrace,
            show (('\x7d' : Char) == ',') = false from by decide,
            show (('\x7d' : Char) == '\x7d') = true from by decide,
            Bool.false_eq_true, if_false, if_true]
      | cons k1 v1 tl1 =>
          have htail : renderMs false (JMembers.cons k1 v1 tl1) ++ '\x7d' :: rest =
              ',' :: ' ' :: (renderMs true (JMembers.cons k1 v1 tl1) ++ '\x7d' :: rest) := by
            rw [renderMs_false_cons]
            simp
          have hcomma : jsSkipWs (',' :: ' ' ::
              (renderMs true (JMembers.cons k1 v1 tl1) ++ '\x7d' :: rest)) =
              ',' :: ' ' :: (renderMs true (JMembers.cons k1 v1 tl1) ++ '\x7d' :: rest) :=
            jsSkipWs_cons_not_ws _ _ (by decide)
          have hspace2 : jsSkipWs (' ' ::
              (renderMs true (JMembers.cons k1 v1 tl1) ++ '\x7d' :: rest)) =
              renderMs true (JMembers.cons k1 v1 tl1) ++ '\x7d' :: rest := by
            rw [jsSkipWs_space, renderMs_true_cons_shape, List.cons_append,
              jsSkipWs_cons_not_ws _ _ (by decide)]
          have hrec := pMembers_render (.cons k1 v1 tl1) f rest htlf
            (by simp only [mfuel] at hf ⊢; omega) (by intro hcontra; cases hcontra)
          rw [hred, hstr]
          simp only [hcolon, show ((':' : Char) == ':') = true from by decide, if_true,
            hspace, hval]
          simp only [htail, hcomma,
            show ((',' : Char) == ',') = true from by decide, if_true,
            hspace2, hrec]
          rfl

theorem pElems_render (xs : JArr) :
    ∀ (fuel : Nat) (rest : List Char), asafeB xs = true → afuel xs ≤ fuel →
      xs ≠ .nil → pElems fuel (renderArr true xs ++ ']' :: rest) = some (xs, rest) := by
  intro fuel rest hs hf hne
  cases xs with
  | nil => exact absurd rfl hne
  | cons v tl =>
    cases fuel with
    | zero =>
        refine absurd hf ?_
        simp only [afuel, Nat.le_zero]
        omega
    | succ f =>
      have htmp := hs
      simp only [asafeB, Bool.and_eq_true] at htmp
      obtain ⟨hvf, htlf⟩ := htmp
      have hsh : renderArr true (.cons v tl) ++ ']' :: rest =
          renderJ v ++ (renderArr false tl ++ ']' :: rest) := by
        rw [renderArr]
        simp
      rw [hsh]
      have hred : pElems (f + 1) (renderJ v ++ (renderArr false tl ++ ']' :: rest)) =
          (match pVal f (renderJ v ++ (renderArr false tl ++ ']' :: rest)) with
           | none => none
           | some (v', r) =>
               match jsSkipWs r with
               | [] => none
               | c :: r2 =>
                   if c == ',' then (pElems f (jsSkipWs r2)).map (fun p => (.cons v' p.1, p.2))
                   else if c == ']' then some (.cons v' .nil, r2)
                   else none) := rfl
      have hval := pVal_render v f (renderArr false tl ++ ']' :: rest) hvf
        (by simp only [afuel] at hf; omega) (numBoundary_renderArr_tail tl rest)
      cases tl with
      | nil =>
          have htail : renderArr false JArr.nil ++ ']' :: rest = ']' :: rest := by
            rw [renderArr]
            simp
          have hrb : jsSkipWs (']' :: rest) = ']' :: rest :=
            jsSkipWs_cons_not_ws _ _ (by decide)
          rw [hred]
          simp only [hval]
          simp only [htail, hrb,
            show ((']' : Char) == ',') = false from by decide,
            show ((']' : Char) == ']') = true from by decide,
            Bool.false_eq_true, if_false, if_true]
      | cons v1 tl1 =>
          have htail : renderArr false (JArr.cons v1 tl1) ++ ']' :: rest =
              ',' :: ' ' :: (renderArr true (JArr.cons v1 tl1) ++ ']' :: rest) := by
            rw [renderArr_false_cons]
            simp
          have hcomma : jsSkipWs (',' :: ' ' ::
              (renderArr true (JArr.cons v1 tl1) ++ ']' :: rest)) =
              ',' :: ' ' :: (renderArr true (JArr.cons v1 tl1) ++ ']' :: rest) :=
            jsSkipWs_cons_not_ws _ _ (by decide)
          have hsh1 : renderArr true (JArr.cons v1 tl1) ++ ']' :: rest =
              renderJ v1 ++ (renderArr false tl1 ++ ']' :: rest) := by
            rw [renderArr]
            simp
          have hspace2 : jsSkipWs (' ' :: (renderArr true (JArr.cons v1 tl1) ++ ']' :: rest)) =
              renderArr true (JArr.cons v1 tl1) ++ ']' :: rest := by
            rw [jsSkipWs_space, hsh1, jsSkipWs_renderJ, ← hsh1]
          have hrec := pElems_render (.cons v1 tl1) f rest htlf
            (by simp only [afuel] at hf ⊢; omega) (by intro hcontra; cases hcontra)
          rw [hred]
          simp only [hval]
          simp only [htail, hcomma,
            show ((',' : Char) == ',') = true from by decide, if_true, hspace2, hrec]
          rfl
end


theorem intDec_ne_nil (n : Int) : intDec n ≠ [] := by
  rw [intDec]
  split
  · intro h; cases h
  · exact natDec_ne_nil _

mutual
theorem jfuel_le_len (v : JVal) : jfuel v ≤ (renderJ v).length := by
  cases v with
  | jstr s => simp [jfuel, renderJ, renderStr]
  | jnum n =>
      have h := intDec_ne_nil n
      cases hd : intDec n with
      | nil => exact absurd hd h
      | cons a l => simp [jfuel, renderJ, hd]
  | jbool b => cases b <;> decide
  | jnull => decide
  | jarr xs =>
      have h := afuel_le_len xs
      simp only [jfuel, renderJ, List.length_cons, List.length_append,
        List.length_nil]
      omega
  | jobj ms =>
      have h := mfuel_le_len ms
      simp only [jfuel, renderJ, List.length_cons, List.length_append,
        List.length_nil]
      omega

theorem afuel_le_len (xs : JArr) : afuel xs ≤ (renderArr true xs).length + 1 := by
  cases xs with
  | nil => simp [afuel]
  | cons v tl =>
      have h1 := jfuel_le_len v
      cases tl with
      | nil =>
          simp only [afuel, renderArr, if_true, List.nil_append,
            List.append_nil, List.length_append]
          omega
      | cons v1 tl1 =>
          have h2 := afuel_le_len (.cons v1 tl1)
          rw [renderArr, if_pos rfl, List.nil_append,
            renderArr_false_cons]
          simp only [afuel, List.length_append, List.length_cons] at *
          omega

theorem mfuel_le_len (ms : JMembers) : mfuel ms ≤ (renderMs true ms).length + 1 := by
  cases ms with
  | nil => simp [mfuel]
  | cons k v tl =>
      have h1 := jfuel_le_len v
      cases tl with
      | nil =>
          rw [renderMs, if_pos rfl, List.nil_append]
          simp only [mfuel, renderMs, List.append_nil, List.length_append,
            List.length_cons]
          omega
      | cons k1 v1 tl1 =>
          have h2 := mfuel_le_len (.cons k1 v1 tl1)
          rw [renderMs, if_pos rfl, List.nil_append,
            renderMs_false_cons]
          simp only [mfuel, List.length_append, List.length_cons] at *
          omega
end

/-- Parsing a rendered safe value recovers the value: `json.loads(json.dumps(v))
= v` for values whose strings avoid characters needing escapes. -/
theorem jparseL_renderJ (v : JVal) (hs : jsafeB v = true) :
    jparseL (renderJ v) = some v := by
  have hfl : jfuel v ≤ (renderJ v).length + 1 := by
    have := jfuel_le_len v; omega
  have h := pVal_render v ((renderJ v).length + 1) [] hs hfl rfl
  rw [List.append_nil] at h
  have hskip : jsSkipWs (renderJ v) = renderJ v := by
    have h2 := jsSkipWs_renderJ v []
    simpa using h2
  rw [jparseL, hskip, h]
  rfl


/-- Every character `natDecGo` emits is a `digitChar` image, so any predicate
holding on those holds on all of them. -/
theorem natDecGo_all_of (p : Char → Bool) (hp : ∀ k, k < 10 → p (digitChar k) = true) :
    ∀ fuel n, ∀ c ∈ natDecGo fuel n, p c = true := by
  intro fuel
  induction fuel with
  | zero => intro n c hc; simp [natDecGo] at hc
  | succ f ih =>
      intro n c hc
      by_cases h : n < 10
      · simp only [natDecGo, h, if_true, List.mem_singleton] at hc
        exact hc ▸ hp n h
      · simp only [natDecGo, h, if_false, List.mem_append, List.mem_singleton] at hc
        rcases hc with hc | hc
        · exact ih (n / 10) c hc
        · exact hc ▸ hp (n % 10) (Nat.mod_lt n (by omega))

theorem digitChar_safe : ∀ k, k < 10 → safeChar (digitChar k) = true := by decide

theorem intDec_all_safe (n : Int) : ∀ c ∈ intDec n, safeChar c = true := by
  intro c hc
  rw [intDec] at hc
  split at hc
  · rcases List.mem_cons.mp hc with h | h
    · subst h; decide
    · exact natDecGo_all_of safeChar digitChar_safe _ _ c h
  · exact natDecGo_all_of safeChar digitChar_safe _ _ c hc

theorem isoformat_safe (t : Int) : (isoformat t).data.all safeChar = true := by
  have : (intDec t).all safeChar = true := by
    rw [List.all_eq_true]
    intro c hc
    exact intDec_all_safe t c hc
  exact this

theorem hexChar_safe : ∀ n, n < 16 → safeChar (hexChar n) = true := by decide

theorem bytesToHex_all_safe (bs : List Nat) : (bytesToHex bs).all safeChar = true := by
  induction bs with
  | nil => rfl
  | cons b tl ih =>
      simp only [bytesToHex, List.flatMap_cons, List.all_append] at *
      rw [ih]
      simp only [List.all_cons, List.all_nil,
        hexChar_safe (b / 16 % 16) (Nat.mod_lt _ (by omega)),
        hexChar_safe (b % 16) (Nat.mod_lt _ (by omega)), Bool.and_true]

theorem hmacHexDigest_safe (key msg : String) :
    (hmacHexDigest key msg).data.all safeChar = true :=
  bytesToHex_all_safe (hmacSha256 (strToBytes key) (strToBytes msg))

/-- A character the ASCII `bytes.decode()` accepts. -/
def asciiOk (c : Char) : Bool := c.toNat < 128

theorem safe_ascii (c : Char) (h : safeChar c = true) : asciiOk c = true := by
  simp only [safeChar, Bool.and_eq_true, decide_eq_true_eq] at h
  obtain ⟨⟨⟨h32, h126⟩, _⟩, _⟩ := h
  simp only [asciiOk, decide_eq_true_eq]
  omega

theorem all_safe_ascii (l : List Char) (h : l.all safeChar = true) :
    l.all asciiOk = true := by
  rw [List.all_eq_true] at *
  intro c hc
  exact safe_ascii c (h c hc)

mutual
/-- `json.dumps` of a safe value emits pure ASCII. -/
theorem renderJ_ascii (v : JVal) : jsafeB v = true → (renderJ v).all asciiOk = true := by
  cases v with
  | jstr s =>
      intro hs
      have hs' : s.data.all safeChar = true := hs
      show (renderStr s).all asciiOk = true
      rw [renderStr_safe s hs']
      simp only [List.all_cons, List.all_append, List.all_nil,
        all_safe_ascii s.data hs', Bool.and_true, Bool.true_and]
      decide
  | jnum n =>
      intro _
      show (intDec n).all asciiOk = true
      rw [List.all_eq_true]
      intro c hc
      exact safe_ascii c (intDec_all_safe n c hc)
  | jbool b => intro _; cases b <;> decide
  | jnull => intro _; decide
  | jarr xs =>
      intro hs
      have hs' : asafeB xs = true := hs
      show ('[' :: (renderArr true xs ++ [']'])).all asciiOk = true
      simp only [List.all_cons, List.all_append, List.all_nil,
        renderArr_ascii true xs hs', Bool.and_true, Bool.true_and]
      decide
  | jobj ms =>
      intro hs
      have hs' : msafeB ms = true := hs
      show ('\x7b' :: (renderMs true ms ++ ['\x7d'])).all asciiOk = true
      simp only [List.all_cons, List.all_append, List.all_nil,
        renderMs_ascii true ms hs', Bool.and_true, Bool.true_and]
      decide

theorem renderArr_ascii (first : Bool) (xs : JArr) : asafeB xs = true →
    (renderArr first xs).all asciiOk = true := by
  cases xs with
  | nil => intro _; cases first <;> rfl
  | cons v tl =>
      intro hs
      have h' : (jsafeB v && asafeB tl) = true := hs
      rw [Bool.and_eq_true] at h'
      show ((if first then [] else [',', ' ']) ++ renderJ v ++ renderArr false tl).all
        asciiOk = true
      simp only [List.all_append, renderJ_ascii v h'.1,
        renderArr_ascii false tl h'.2, Bool.and_true, Bool.true_and]
      cases first <;> decide

theorem renderMs_ascii (first : Bool) (ms : JMembers) : msafeB ms = true →
    (renderMs first ms).all asciiOk = true := by
  cases ms with
  | nil => intro _; cases first <;> rfl
  | cons k v tl =>
      intro hs
      have h' : (k.data.all safeChar && jsafeB v && msafeB tl) = true := hs
      simp only [Bool.and_eq_true] at h'
      obtain ⟨⟨hk, hv⟩, htl⟩ := h'
      show ((if first then [] else [',', ' ']) ++ renderStr k ++ ':' :: ' ' ::
        renderJ v ++ renderMs false tl).all asciiOk = true
      rw [renderStr_safe k hk]
      simp only [List.all_append, List.all_cons, List.all_nil,
        renderJ_ascii v hv, renderMs_ascii false tl htl, all_safe_ascii k.data hk,
        Bool.and_true, Bool.true_and]
      cases first <;> decide
end

theorem strToBytes_lt_128 (s : String) (h : s.data.all asciiOk = true) :
    (strToBytes s).all (fun b => b < 128) = true := by
  rw [List.all_eq_true] at h ⊢
  intro b hb
  rw [strToBytes, List.mem_map] at hb
  obtain ⟨c, hc, rfl⟩ := hb
  exact h c hc

theorem bytesToAscii_strToBytes (s : String) (h : s.data.all asciiOk = true) :
    bytesToAscii (strToBytes s) = some s.data := by
  rw [bytesToAscii, if_pos (strToBytes_lt_128 s h)]
  congr 1
  rw [strToBytes, List.map_map]
  have he : ∀ c : Char, (Char.ofNat ∘ Char.toNat) c = c := fun c => Char.ofNat_toNat c
  calc s.data.map (Char.ofNat ∘ Char.toNat) = s.data.map id := List.map_congr_left
        (fun c _ => he c)
    _ = s.data := List.map_id s.data


set_option maxHeartbeats 1000000

theorem b64idx_b64char : ∀ i, i < 64 → b64idx (b64char i) = some i := by decide

theorem b64char_keep_lt : ∀ i, i < 64 →
    ((b64idx (b64char i)).isSome || (b64char i == '=')) = true := by decide

theorem b64char_keep (i : Nat) :
    ((b64idx (b64char i)).isSome || (b64char i == '=')) = true := by
  by_cases h : i < 64
  · exact b64char_keep_lt i h
  · have hd : b64char i = 'A' := by
      rw [b64char, List.getD_eq_default]
      show 64 ≤ i
      omega
    rw [hd]
    decide

theorem b64char_ne_pad : ∀ i, i < 64 → (b64char i == '=') = false := by decide

theorem pad_keep : (((b64idx '=').isSome || ('=' == '=')) = true) := by decide

/-- The filtering pass of `b64decode` keeps every character `b64encode`
emits. -/
theorem b64filter_encode : ∀ bs : List Nat,
    (b64encodeBytes bs).filter (fun c => (b64idx c).isSome || c == '=') =
      b64encodeBytes bs
  | [] => rfl
  | [a] => by
      simp only [b64encodeBytes, List.filter_cons,
        b64char_keep (a / 4), b64char_keep (a % 4 * 16),
        pad_keep, if_true, List.filter_nil]
  | [a, b] => by
      simp only [b64encodeBytes, List.filter_cons,
        b64char_keep (a / 4),
        b64char_keep (a % 4 * 16 + b / 16),
        b64char_keep (b % 16 * 4),
        pad_keep, if_true, List.filter_nil]
  | a :: b :: c :: rest => by
      simp only [b64encodeBytes, List.filter_cons,
        b64char_keep (a / 4),
        b64char_keep (a % 4 * 16 + b / 16),
        b64char_keep (b % 16 * 4 + c / 64),
        b64char_keep (c % 64), if_true,
        b64filter_encode rest]

/-- Decoding the four-character groups of `b64encode` recovers the bytes. -/
theorem b64decode_encode : ∀ bs : List Nat, bs.all (fun b => b < 256) = true →
    b64decodeGroups (b64encodeBytes bs) = some bs
  | [], _ => rfl
  | [a], h => by
      have ha : a < 256 := by simpa using h
      rw [b64encodeBytes, b64decodeGroups,
        b64idx_b64char (a / 4) (by omega),
        b64idx_b64char (a % 4 * 16) (by omega)]
      simp only [List.isEmpty_nil, Bool.and_true, if_true,
        show (('=' : Char) == '=') = true from by decide]
      have : a / 4 * 4 + a % 4 * 16 / 16 = a := by omega
      rw [this]
  | [a, b], h => by
      have ha : a < 256 ∧ b < 256 := by simpa using h
      rw [b64encodeBytes, b64decodeGroups,
        b64idx_b64char (a / 4) (by omega),
        b64idx_b64char (a % 4 * 16 + b / 16) (by omega)]
      simp only [b64char_ne_pad (b % 16 * 4) (by omega), Bool.false_eq_true,
        if_false, b64idx_b64char (b % 16 * 4) (by omega),
        show (('=' : Char) == '=') = true from by decide, if_true,
        List.isEmpty_nil]
      have h1 : a / 4 * 4 + (a % 4 * 16 + b / 16) / 16 = a := by omega
      have h2 : (a % 4 * 16 + b / 16) % 16 * 16 + b % 16 * 4 / 4 = b := by omega
      rw [h1, h2]
  | a :: b :: c :: rest, h => by
      have hm : a < 256 ∧ b < 256 ∧ c < 256 ∧ rest.all (fun x => x < 256) = true := by
        simpa [List.all_cons] using h
      rw [b64encodeBytes, b64decodeGroups,
        b64idx_b64char (a / 4) (by omega),
        b64idx_b64char (a % 4 * 16 + b / 16) (by omega)]
      simp only [b64char_ne_pad (b % 16 * 4 + c / 64) (by omega),
        b64char_ne_pad (c % 64) (by omega), Bool.false_eq_true, if_false,
        b64idx_b64char (b % 16 * 4 + c / 64) (by omega),
        b64idx_b64char (c % 64) (by omega),
        b64decode_encode rest hm.2.2.2, Option.map_some]
      have h1 : a / 4 * 4 + (a % 4 * 16 + b / 16) / 16 = a := by omega
      have h2 : (a % 4 * 16 + b / 16) % 16 * 16 + (b % 16 * 4 + c / 64) / 4 = b := by
        omega
      have h3 : (b % 16 * 4 + c / 64) % 4 * 64 + c % 64 = c := by omega
      rw [h1, h2, h3]
      rfl

/-- `base64.b64decode(base64.b64encode(bs))` is `bs` for byte input. -/
theorem b64decodeStr_encode (bs : List Nat) (h : bs.all (fun b => b < 256) = true) :
    b64decodeStr (String.mk (b64encodeBytes bs)) = some bs := by
  show b64decodeGroups ((b64encodeBytes bs).filter _) = some bs
  rw [b64filter_encode bs, b64decode_encode bs h]


set_option maxHeartbeats 1000000

theorem features_safe (ty : String) : jsafeB (get_license_features ty) = true := by
  simp only [get_license_features]
  repeat' split
  all_goals decide

theorem genData_safe (email ty expires mid : String)
    (he : email.data.all safeChar = true) (ht : ty.data.all safeChar = true)
    (hx : expires.data.all safeChar = true) (hm : mid.data.all safeChar = true) :
    jsafeB (genData email ty expires mid) = true := by
  show msafeB _ = true
  simp only [msafeB, jsafeB, he, ht, hx, hm, features_safe ty, Bool.and_true,
    Bool.true_and]
  decide

/-- Decoding a freshly encoded safe payload returns the payload: the base64,
byte-decode and JSON stages all invert. -/
theorem decode_payload_roundtrip (p : JVal) (hs : jsafeB p = true) :
    decode_payload (String.mk (b64encodeBytes (strToBytes (dumps p)))) = .ok p := by
  have hascii : (dumps p).data.all asciiOk = true := renderJ_ascii p hs
  have hbytes : (strToBytes (dumps p)).all (fun b => b < 256) = true := by
    have h128 := strToBytes_lt_128 (dumps p) hascii
    rw [List.all_eq_true] at h128 ⊢
    intro b hb
    have h2 := h128 b hb
    simp only [decide_eq_true_eq] at h2 ⊢
    omega
  have hj : jparseL (dumps p).data = some p := jparseL_renderJ p hs
  simp only [decode_payload, b64decodeStr_encode _ hbytes,
    bytesToAscii_strToBytes _ hascii, hj]

/-- `LicenseValidator.validate_license_key` on a key that decodes to a
correctly signed payload checks only the expiry. -/
theorem validator_payload (now' : Int) (key : String) (d : JVal) (eiso : String)
    (t : Int)
    (hdec : decode_payload key = .ok (.jobj (.cons "data" d (.cons "signature"
      (.jstr (hmacHexDigest license_secret (dumpsSorted d))) .nil))))
    (hexp : jGet d "expires" = some (.jstr eiso))
    (hiso : fromisoformat eiso = some t) :
    LicenseValidator.validate_license_key now' key =
      if now' > t then .invalid "License expired"
      else .valid d (timedeltaDays (t - now')) := by
  have h1 : jGet (JVal.jobj (.cons "data" d (.cons "signature"
      (.jstr (hmacHexDigest license_secret (dumpsSorted d))) .nil))) "data" =
      some d := rfl
  have h2 : jGet (JVal.jobj (.cons "data" d (.cons "signature"
      (.jstr (hmacHexDigest license_secret (dumpsSorted d))) .nil)))
      "signature" = some (.jstr (hmacHexDigest license_secret (dumpsSorted d))) :=
    rfl
  rw [LicenseValidator.validate_license_key, hdec]
  simp only [h1, h2, beq_self_eq_true, if_true, hexp, hiso]

/-- `LicenseManager.validate_license_key` on a key that decodes to a correctly
signed payload checks the expiry and then the machine id. -/
theorem manager_payload (now' : Int) (cur key : String) (d : JVal) (eiso : String)
    (t : Int) (mid : String)
    (hdec : decode_payload key = .ok (.jobj (.cons "data" d (.cons "signature"
      (.jstr (hmacHexDigest license_secret (dumpsSorted d))) .nil))))
    (hexp : jGet d "expires" = some (.jstr eiso))
    (hiso : fromisoformat eiso = some t)
    (hmid : jGet d "machine_id" = some (.jstr mid)) :
    LicenseManager.validate_license_key now' cur key =
      if now' > t then .invalid "License expired"
      else if !(mid == "") && !(mid == cur) then
        .invalid "License not valid for this machine"
      else .valid d (timedeltaDays (t - now')) := by
  have h1 : jGet (JVal.jobj (.cons "data" d (.cons "signature"
      (.jstr (hmacHexDigest license_secret (dumpsSorted d))) .nil))) "data" =
      some d := rfl
  have h2 : jGet (JVal.jobj (.cons "data" d (.cons "signature"
      (.jstr (hmacHexDigest license_secret (dumpsSorted d))) .nil)))
      "signature" = some (.jstr (hmacHexDigest license_secret (dumpsSorted d))) :=
    rfl
  rw [LicenseManager.validate_license_key, hdec]
  simp only [h1, h2, beq_self_eq_true, if_true, hexp, hiso, hmid, jTruthy]
  by_cases hmt : (mid == "") = true
  · simp only [hmt, Bool.not_true, Bool.false_eq_true, if_false, Bool.false_and]
  · rw [Bool.not_eq_true] at hmt
    simp only [hmt, Bool.not_false, if_true, Bool.true_and]

theorem genData_expires (email ty x mid : String) :
    jGet (genData email ty x mid) "expires" = some (.jstr x) := rfl

theorem genData_machine (email ty x mid : String) :
    jGet (genData email ty x mid) "machine_id" = some (.jstr mid) := rfl

theorem genData_type (email ty x mid : String) :
    jGet (genData email ty x mid) "type" = some (.jstr ty) := rfl

/-- Generation followed by validation with the standalone validator module:
only the expiry is checked, never the machine id. -/
theorem validator_generate (now now' : Int) (mid email ty : String) (days : Int)
    (he : email.data.all safeChar = true) (ht : ty.data.all safeChar = true)
    (hm : mid.data.all safeChar = true) :
    LicenseValidator.validate_license_key now'
        (generate_license_key now mid email ty days) =
      if now' > now + days * 86400 then .invalid "License expired"
      else .valid (genData email ty (isoformat (now + days * 86400)) mid)
        (timedeltaDays (now + days * 86400 - now')) := by
  have hps : jsafeB (JVal.jobj (.cons "data"
      (genData email ty (isoformat (now + days * 86400)) mid)
      (.cons "signature" (.jstr (hmacHexDigest license_secret
        (dumpsSorted (genData email ty (isoformat (now + days * 86400)) mid))))
        .nil))) = true := by
    show msafeB _ = true
    have hd := genData_safe email ty (isoformat (now + days * 86400)) mid he ht
      (isoformat_safe _) hm
    have hs2 : jsafeB (JVal.jstr (hmacHexDigest license_secret (dumpsSorted
        (genData email ty (isoformat (now + days * 86400)) mid)))) = true :=
      hmacHexDigest_safe license_secret _
    simp only [msafeB, hd, hs2, Bool.and_true, Bool.true_and]
    decide
  have hdec : decode_payload (generate_license_key now mid email ty days) =
      .ok (.jobj (.cons "data"
        (genData email ty (isoformat (now + days * 86400)) mid)
        (.cons "signature" (.jstr (hmacHexDigest license_secret
          (dumpsSorted (genData email ty (isoformat (now + days * 86400)) mid))))
          .nil))) := by
    rw [generate_license_key]
    exact decode_payload_roundtrip _ hps
  exact validator_payload now' _ _ _ _ hdec (genData_expires _ _ _ _)
    (fromisoformat_isoformat _)

/-- Generation followed by validation with `LicenseManager`: the expiry is
checked and then the recorded machine id is compared to the current one. -/
theorem manager_generate (now now' : Int) (cur mid email ty : String) (days : Int)
    (he : email.data.all safeChar = true) (ht : ty.data.all safeChar = true)
    (hm : mid.data.all safeChar = true) :
    LicenseManager.validate_license_key now' cur
        (generate_license_key now mid email ty days) =
      if now' > now + days * 86400 then .invalid "License expired"
      else if !(mid == "") && !(mid == cur) then
        .invalid "License not valid for this machine"
      else .valid (genData email ty (isoformat (now + days * 86400)) mid)
        (timedeltaDays (now + days * 86400 - now')) := by
  have hps : jsafeB (JVal.jobj (.cons "data"
      (genData email ty (isoformat (now + days * 86400)) mid)
      (.cons "signature" (.jstr (hmacHexDigest license_secret
        (dumpsSorted (genData email ty (isoformat (now + days * 86400)) mid))))
        .nil))) = true := by
    show msafeB _ = true
    have hd := genData_safe email ty (isoformat (now + days * 86400)) mid he ht
      (isoformat_safe _) hm
    have hs2 : jsafeB (JVal.jstr (hmacHexDigest license_secret (dumpsSorted
        (genData email ty (isoformat (now + days * 86400)) mid)))) = true :=
      hmacHexDigest_safe license_secret _
    simp only [msafeB, hd, hs2, Bool.and_true, Bool.true_and]
    decide
  have hdec : decode_payload (generate_license_key now mid email ty days) =
      .ok (.jobj (.cons "data"
        (genData email ty (isoformat (now + days * 86400)) mid)
        (.cons "signature" (.jstr (hmacHexDigest license_secret
          (dumpsSorted (genData email ty (isoformat (now + days * 86400)) mid))))
          .nil))) := by
    rw [generate_license_key]
    exact decode_payload_roundtrip _ hps
  exact manager_payload now' cur _ _ _ _ mid hdec (genData_expires _ _ _ _)
    (fromisoformat_isoformat _) (genData_machine _ _ _ _)


set_option maxHeartbeats 1000000

/-- C1: counterexample.  The spec says the machine-id check is disabled and a
correctly signed, unexpired license validates even on a different machine.
`LicenseManager.validate_license_key` (the validator the application runs)
executes the check: the very key that the standalone validator module accepts
as valid is rejected with "License not valid for this machine" when the
current machine id differs from the recorded one. -/
theorem C1_counterexample :
    LicenseValidator.validate_license_key 0
        (generate_license_key 0 "AAAA" "a@b.com" "standard" 365) =
      .valid (genData "a@b.com" "standard" "31536000" "AAAA") 365 ∧
    LicenseManager.validate_license_key 0 "BBBB"
        (generate_license_key 0 "AAAA" "a@b.com" "standard" 365) =
      .invalid "License not valid for this machine" := by
  constructor
  · rw [validator_generate 0 0 "AAAA" "a@b.com" "standard" 365
      (by decide) (by decide) (by decide)]
    rfl
  · rw [manager_generate 0 0 "BBBB" "AAAA" "a@b.com" "standard" 365
      (by decide) (by decide) (by decide)]
    rfl

/-- C1 (amended): machine-id binding is enforced by
`LicenseManager.validate_license_key`, whose machine check is live (lines
133-136): an unexpired generated license whose recorded machine id is
non-empty and differs from the current machine's id is rejected with
"License not valid for this machine", while the standalone
`LicenseValidator` module (whose check lines 58-62 are commented out)
accepts the same key as valid. -/
theorem C1_amended (now now' : Int) (cur mid email ty : String) (days : Int)
    (he : email.data.all safeChar = true) (ht : ty.data.all safeChar = true)
    (hm : mid.data.all safeChar = true)
    (hfresh : ¬ now' > now + days * 86400)
    (hne : mid ≠ "") (hnc : mid ≠ cur) :
    LicenseManager.validate_license_key now' cur
        (generate_license_key now mid email ty days) =
      .invalid "License not valid for this machine" ∧
    LicenseValidator.validate_license_key now'
        (generate_license_key now mid email ty days) =
      .valid (genData email ty (isoformat (now + days * 86400)) mid)
        (timedeltaDays (now + days * 86400 - now')) := by
  constructor
  · rw [manager_generate now now' cur mid email ty days he ht hm, if_neg hfresh]
    have hc : (!(mid == "") && !(mid == cur)) = true := by
      rw [beq_eq_false_iff_ne.mpr hne, beq_eq_false_iff_ne.mpr hnc]
      rfl
    rw [hc]
    rfl
  · rw [validator_generate now now' mid email ty days he ht hm, if_neg hfresh]

theorem C1_amended_witness :
    LicenseManager.validate_license_key 0 "x"
        (generate_license_key 0 "m" "a@b.com" "standard" 1) =
      .invalid "License not valid for this machine" ∧
    LicenseValidator.validate_license_key 0
        (generate_license_key 0 "m" "a@b.com" "standard" 1) =
      .valid (genData "a@b.com" "standard" (isoformat (0 + 1 * 86400)) "m")
        (timedeltaDays (0 + 1 * 86400 - 0)) :=
  C1_amended 0 0 "x" "m" "a@b.com" "standard" 1 (by decide) (by decide)
    (by decide) (by decide) (by decide) (by decide)

/-- C4: generating a standard 365-day license for any printable-ASCII email
and validating the key on the same machine within a day yields a valid
result whose data carries type "standard" and whose days_remaining is 364 or
365. -/
theorem C4_license_round_trip (now now' : Int) (mid email : String)
    (he : email.data.all safeChar = true) (hm : mid.data.all safeChar = true)
    (h1 : now ≤ now') (h2 : now' ≤ now + 86400) :
    ∃ d, LicenseManager.validate_license_key now' mid
        (generate_license_key now mid email "standard" 365) =
      .valid (genData email "standard" (isoformat (now + 365 * 86400)) mid) d ∧
    jGet (genData email "standard" (isoformat (now + 365 * 86400)) mid) "type"
      = some (.jstr "standard") ∧ 364 ≤ d ∧ d ≤ 365 := by
  refine ⟨timedeltaDays (now + 365 * 86400 - now'), ?_,
    genData_type _ _ _ _, ?_, ?_⟩
  · rw [manager_generate now now' mid mid email "standard" 365 he (by decide) hm]
    rw [if_neg (by omega)]
    have hc : (!(mid == "") && !(mid == mid)) = false := by simp
    rw [hc]
    rfl
  · rw [timedeltaDays, Int.fdiv_eq_ediv _ (by omega)]
    omega
  · rw [timedeltaDays, Int.fdiv_eq_ediv _ (by omega)]
    omega

theorem C4_license_round_trip_witness :
    ∃ d, LicenseManager.validate_license_key 3600 "m"
        (generate_license_key 0 "m" "a@b.com" "standard" 365) =
      .valid (genData "a@b.com" "standard" (isoformat (0 + 365 * 86400)) "m") d ∧
    jGet (genData "a@b.com" "standard" (isoformat (0 + 365 * 86400)) "m") "type"
      = some (.jstr "standard") ∧ 364 ≤ d ∧ d ≤ 365 :=
  C4_license_round_trip 0 3600 "m" "a@b.com" (by decide) (by decide)
    (by decide) (by decide)

/-- C10: `validate_license_key` is total over arbitrary keys: every result is
a valid/invalid dict (never an exception); any input whose base64, byte or
JSON decoding stage fails yields valid=false with the corresponding error
message; a payload missing the data or signature field yields valid=false
with a missing-field error. -/
theorem C10_validate_total (now : Int) (cur key : String) :
    ((∃ d r, LicenseManager.validate_license_key now cur key = .valid d r) ∨
      (∃ e, LicenseManager.validate_license_key now cur key = .invalid e)) ∧
    (∀ e, decode_payload key = .error e →
      LicenseManager.validate_license_key now cur key =
        .invalid ("License validation error: " ++ e)) ∧
    (∀ payload, decode_payload key = .ok payload →
      jGet payload "data" = none ∨ jGet payload "signature" = none →
      LicenseManager.validate_license_key now cur key =
        .invalid "License validation error: missing field") := by
  refine ⟨?_, ?_, ?_⟩
  · cases hv : LicenseManager.validate_license_key now cur key with
    | valid d r => exact Or.inl ⟨d, r, rfl⟩
    | invalid e => exact Or.inr ⟨e, rfl⟩
  · intro e he
    rw [LicenseManager.validate_license_key, he]
  · intro payload hok hmiss
    rw [LicenseManager.validate_license_key, hok]
    rcases hmiss with h0 | h0
    · simp only [h0]
    · simp only [h0]
      cases hdd : jGet payload "data" with
      | none => rfl
      | some d0 => rfl

theorem C10_validate_total_witness :
    LicenseManager.validate_license_key 0 "" "%%%" =
      .invalid ("License validation error: " ++ "invalid JSON") :=
  (C10_validate_total 0 "" "%%%").2.1 "invalid JSON" rfl


set_option maxHeartbeats 8000000
set_option maxRecDepth 100000

/-- `key[:i] + c + key[i+1:]`: the key with the character at position `i`
replaced. -/
def setCharAt (s : String) (i : Nat) (c : Char) : String :=
  String.mk (s.data.set i c)

/-- The key generated at time 0 for machine "m", email "a", type "t", one day
valid, evaluated once and shared by the C9 proofs. -/
theorem key_concrete : generate_license_key 0 "m" "a" "t" 1 =
    "eyJkYXRhIjogeyJlbWFpbCI6ICJhIiwgInR5cGUiOiAidCIsICJleHBpcmVzIjogIjg2NDAwIiwgIm1hY2hpbmVfaWQiOiAibSIsICJ2ZXJzaW9uIjogIjEuMCIsICJmZWF0dXJlcyI6IHsiY3JlYXRlX3RpY2tldHMiOiB0cnVlLCAiY29tbWVudF90aWNrZXRzIjogdHJ1ZSwgImFzc2lnbl90aWNrZXRzIjogdHJ1ZSwgInNlYXJjaF90aWNrZXRzIjogdHJ1ZSwgImV4cG9ydF9kYXRhIjogZmFsc2UsICJhcGlfYWNjZXNzIjogZmFsc2UsICJwcmlvcml0eV9zdXBwb3J0IjogZmFsc2UsICJtYXhfdXNlcnMiOiAxfX0sICJzaWduYXR1cmUiOiAiYzVkZjNhOWQ2M2ZkYWUyZGQyNjNkNDRjMmI4ZWI1MThhNjc0ZTgzNTNjNGZlMDQzNzUzOWM0ZmJjZTk1MDA5ZSJ9" :=
  by rfl

/-- C9: counterexample.  Replacing the first character of a generated key's
base64 payload with 'A' changes the key, but validation reports a generic
decoding error ("License validation error: ..."), not the signature-mismatch
reason the spec promises: the alteration breaks the JSON parse before any
signature is checked. -/
theorem C9_counterexample :
    setCharAt (generate_license_key 0 "m" "a" "t" 1) 0 'A' ≠
      generate_license_key 0 "m" "a" "t" 1 ∧
    LicenseManager.validate_license_key 0 "m"
        (setCharAt (generate_license_key 0 "m" "a" "t" 1) 0 'A') =
      .invalid "License validation error: invalid JSON" := by
  rw [key_concrete]
  exact ⟨by decide, by rfl⟩

/-- C9 (amended): a single-character alteration of a generated key's base64
payload need not yield valid=false at all, and when it does the reason
depends on which stage the alteration breaks.  On the key generated at time
0 for machine "m", email "a", type "t", 1 day valid: replacing character 11
('g' with 'J') only turns the encoded JSON space after the "data" key into a
tab, so the payload parses to the same dict, the recomputed signature still
matches, and the altered key validates as valid=true with the original
license data; replacing character 27 ('h' with 'B') turns the signed email
byte "a" into "A", so the payload still decodes but the recomputed signature
differs from the stored one and the reason is the signature mismatch
"Invalid license signature"; replacing character 0 ('e' with 'A') breaks the
JSON parse and the reason is the generic decode error "License validation
error: invalid JSON". -/
theorem C9_amended :
    (setCharAt (generate_license_key 0 "m" "a" "t" 1) 11 'J' ≠
        generate_license_key 0 "m" "a" "t" 1 ∧
      LicenseManager.validate_license_key 0 "m"
          (setCharAt (generate_license_key 0 "m" "a" "t" 1) 11 'J') =
        .valid (genData "a" "t" (isoformat (0 + 1 * 86400)) "m") 1) ∧
    (setCharAt (generate_license_key 0 "m" "a" "t" 1) 27 'B' ≠
        generate_license_key 0 "m" "a" "t" 1 ∧
      LicenseManager.validate_license_key 0 "m"
          (setCharAt (generate_license_key 0 "m" "a" "t" 1) 27 'B') =
        .invalid "Invalid license signature") ∧
    (setCharAt (generate_license_key 0 "m" "a" "t" 1) 0 'A' ≠
        generate_license_key 0 "m" "a" "t" 1 ∧
      LicenseManager.validate_license_key 0 "m"
          (setCharAt (generate_license_key 0 "m" "a" "t" 1) 0 'A') =
        .invalid "License validation error: invalid JSON") := by
  rw [key_concrete]
  exact ⟨⟨by decide, by rfl⟩, ⟨by decide, by rfl⟩, ⟨by decide, by rfl⟩⟩
